import Mathlib

/-
Verification development for the DataFlow SSA builder and the Stack binary
writer of this WebAssembly toolchain component.

The DataFlow builder is embedded from src/src/dataflow/builder.h.  The Node
model (dataflow/node.h) is not part of the provided sources; following the
design notes, nodes live by value in an append-only arena and child references
are indices into that arena, with index 0 reserved for the canonical Bad node.
Node-level operations that live in the missing node.h (structural equality,
returnsI1, getWasmType) are modelled from the spec and are marked as such.

The Stack writer is embedded from src/src/stack/stack.cpp; its output buffer
is modelled as the sequence of emitted items (opcodes and LEB-encoded
integers), and process aborts (getBreakIndex misses) are modelled as Option
failure.
-/

namespace DataFlow

/-- Source/IR value types recognized by the component. -/
inductive WType where
  | i32
  | i64
  | f32
  | f64
  | noneT
  | unreachT
deriving DecidableEq, Repr

/-- Integer widths for the supported operators. -/
inductive IWidth where
  | w32
  | w64
deriving DecidableEq, Repr

/-- The type corresponding to an integer width. -/
def IWidth.toTy : IWidth → WType
  | .w32 => .i32
  | .w64 => .i64

/-- The integer binary operator kinds enumerated in Builder::visitBinary
(both the supported set and the four redundant comparisons that get
flipped). -/
inductive IBinKind where
  | add | sub | mul | divS | divU | remS | remU
  | andK | orK | xorK | shl | shrU | shrS | rotL | rotR
  | eqK | neK | ltS | ltU | leS | leU
  | gtS | gtU | geS | geU
deriving DecidableEq, Repr

/-- The integer unary operator kinds supported as-is by Builder::visitUnary. -/
inductive IUnKind where
  | clz | ctz | popcnt
deriving DecidableEq, Repr

/-- Whether an integer binary kind is one of the comparisons. -/
def IBinKind.isCmp : IBinKind → Bool
  | .eqK | .neK | .ltS | .ltU | .leS | .leU | .gtS | .gtU | .geS | .geU => true
  | _ => false

/-- The "opposite" table of Builder::visitBinary for GtS/GtU/GeS/GeU,
exactly as the source writes it (GtS -> LeS, GeS -> LtS, GtU -> LeU,
GeU -> LtU); `none` for every other kind, which falls to the plain
supported path. -/
def flipK : IBinKind → Option IBinKind
  | .gtS => some .leS
  | .gtU => some .leU
  | .geS => some .ltS
  | .geU => some .ltU
  | _ => none

/-- The wasm type of a Binary expression: comparisons have type i32,
all other integer binaries have the type of their width. -/
def binResTy (k : IBinKind) (w : IWidth) : WType :=
  if k.isCmp then .i32 else w.toTy

/-- Payload of an Expr node: the wasm expression it wraps, reduced to
operator, type, and (for constants) the literal value. -/
inductive EPayload where
  | constE (ty : WType) (v : Int)
  | binE (k : IBinKind) (w : IWidth) (ty : WType)
  | unE (k : IUnKind) (w : IWidth) (ty : WType)
  | selE (ty : WType)
deriving DecidableEq, Repr

/-- The variant tag (plus per-variant payload) of a DataFlow node. -/
inductive DKind where
  | bad
  | var (ty : WType)
  | expr (p : EPayload)
  | phi (block : Nat)
  | blockK
  | cond (block : Nat) (index : Nat)
  | zext
deriving DecidableEq, Repr

/-- A DataFlow node: variant tag plus the ordered child references
(indices into the arena). -/
structure DNode where
  kind : DKind
  values : List Nat
deriving DecidableEq, Repr

/-- The canonical Bad node (arena slot 0). -/
def badNode : DNode := ⟨.bad, []⟩

/-- Reference to the canonical Bad node; `is_bad(i)` is `i == 0`. -/
def badRef : Nat := 0

/-- Append a node to the arena, returning its reference. -/
def addN (a : List DNode) (nd : DNode) : Nat × List DNode :=
  (a.length, a ++ [nd])

/-- Replace the child list of the node at reference `r` (used where the
source mutates a node's operand list right after allocating it, as in
makeZeroComp and in the Block/Phi construction inside merge). -/
def setValues (a : List DNode) (r : Nat) (vs : List Nat) : List DNode :=
  a.set r ⟨(a.getD r badNode).kind, vs⟩

/-- isIntegerType: i32 and i64 are the only relevant types. -/
def isRelevantType : WType → Bool
  | .i32 | .i64 => true
  | _ => false

/-- Modelled from the spec: Node::returnsI1 (dataflow/node.h is not in the
sources).  True iff the node is an Expr whose operator is one of the integer
comparisons Eq, Ne, LtS, LtU, LeS, LeU (the set after normalization). -/
def returnsI1 (a : List DNode) (r : Nat) : Bool :=
  match (a.getD r badNode).kind with
  | .expr (.binE k _ _) =>
    match k with
    | .eqK | .neK | .ltS | .ltU | .leS | .leU => true
    | _ => false
  | _ => false

/-- Modelled from the spec: Node::getWasmType (dataflow/node.h is not in the
sources).  Var carries its declared type, an Expr carries its wrapped
expression's type, a Zext has the type of its inner node, a Phi the type of
its first input, a Cond is an i1 predicate (i32 here).  Fuel-based because
references are arena indices. -/
def getWasmType (a : List DNode) : Nat → Nat → WType
  | 0, _ => .noneT
  | fuel + 1, r =>
    match (a.getD r badNode).kind with
    | .bad => .noneT
    | .var ty => ty
    | .expr (.constE ty _) => ty
    | .expr (.binE _ _ ty) => ty
    | .expr (.unE _ _ ty) => ty
    | .expr (.selE ty) => ty
    | .zext => getWasmType a fuel ((a.getD r badNode).values.getD 0 badRef)
    | .phi _ => getWasmType a fuel ((a.getD r badNode).values.getD 0 badRef)
    | .cond _ _ => .i32
    | .blockK => .noneT

/-- The width used for the synthesized zero-comparison of a node of the
given type (Abstract::getBinary; the source aborts on non-integer types,
which its callers never pass). -/
def widthOfTy : WType → IWidth
  | .i64 => .w64
  | _ => .w32

/-- Builder::makeVar: a fresh Var node for a relevant type, the canonical
Bad node otherwise. -/
def makeVar (ty : WType) (a : List DNode) : Nat × List DNode :=
  if isRelevantType ty then addN a ⟨.var ty, []⟩ else (badRef, a)

/-- Builder::makeZero: a zero-constant Expr node of the given type
(no relevance check in the source). -/
def makeZero (ty : WType) (a : List DNode) : Nat × List DNode :=
  addN a ⟨.expr (.constE ty 0), []⟩

/-- Builder::expandFromI1: wrap an i1-returning non-Bad node in a Zext. -/
def expandFromI1 (a : List DNode) (r : Nat) : Nat × List DNode :=
  if r ≠ badRef ∧ returnsI1 a r then addN a ⟨.zext, [r]⟩ else (r, a)

/-- Builder::makeZeroComp: build `node Eq 0` (or `Ne 0`): allocate the zero
constant, allocate the comparison Expr, then fill its operand list with the
i1-expanded node and the zero (the source mutates the freshly allocated
node, so the optional Zext lands after the comparison in the arena). -/
def makeZeroComp (a : List DNode) (r : Nat) (equal : Bool) : Nat × List DNode :=
  let ty := getWasmType a a.length r
  let z := makeZero ty a
  let c := addN z.2 ⟨.expr (.binE (if equal then .eqK else .neK) (widthOfTy ty) ty), []⟩
  let e := expandFromI1 c.2 r
  (c.1, setValues e.2 c.1 [e.1, z.1])

/-- Builder::ensureI1: synthesize `Ne(n, 0)` for a non-Bad node that does
not already return i1. -/
def ensureI1 (a : List DNode) (r : Nat) : Nat × List DNode :=
  if r ≠ badRef ∧ ¬ returnsI1 a r then makeZeroComp a r false else (r, a)

/-- Modelled from the spec: structural node equality used by loop-phi
resolution (Node::operator== lives in the missing node.h): same variant and
payload, and pointwise identical child reference sequences. -/
def structEq (a : List DNode) (r1 r2 : Nat) : Bool :=
  decide (a.getD r1 badNode = a.getD r2 badNode)

/-- A source function: parameter count, all local types (parameters first),
and the body. -/
structure WFunc where
  params : Nat
  localTypes : List WType
deriving DecidableEq, Repr

/-- Builder::isRelevantLocal. -/
def isRelevantLocal (f : WFunc) (i : Nat) : Bool :=
  isRelevantType (f.localTypes.getD i .f32)

/-- The local indices the builder iterates over (`for i < getNumLocals()`),
used both by the constructor's initialization loop and by visitLoop's
per-local Var overwrite and phi resolution. -/
def localIndices (f : WFunc) : List Nat :=
  List.range f.localTypes.length

mutual
/-- The source-IR expressions the DataFlow builder dispatches on.  Visitors
that share one body in the source share one constructor here: `varLike`
stands for Call/CallImport/CallIndirect/Load/GetGlobal (all return
`makeVar(type)` without visiting children), `inert` for SetGlobal, Store,
the atomics, Drop, Host and Nop (all return Bad without visiting children),
and `unreach` for Return and Unreachable (both just enter the unreachable
state).  Break carries only whether a condition is present, since
visitBreak never visits its children. -/
inductive WExpr where
  | block (name : Option String) (kids : WExprList)
  | loop (name : Option String) (body : WExpr)
  | ifElse (c : WExpr) (ifTrue : WExpr) (ifFalse : WExpr)
  | ifNoElse (c : WExpr) (ifTrue : WExpr)
  | brk (name : String) (hasCondition : Bool)
  | swtch (targets : List String) (dflt : String)
  | getl (i : Nat)
  | setl (i : Nat) (value : WExpr)
  | cnst (ty : WType) (v : Int)
  | un (k : IUnKind) (w : IWidth) (value : WExpr)
  | eqz (w : IWidth) (value : WExpr)
  | unOther (ty : WType) (value : WExpr)
  | bin (k : IBinKind) (w : IWidth) (l : WExpr) (r : WExpr)
  | binOther (ty : WType) (l : WExpr) (r : WExpr)
  | sel (ty : WType) (ifTrue : WExpr) (ifFalse : WExpr) (c : WExpr)
  | varLike (ty : WType)
  | inert
  | unreach

/-- A list of block children (mutual with WExpr to keep recursion
structural). -/
inductive WExprList where
  | nil
  | cons (e : WExpr) (rest : WExprList)
end

/-- The local state of a control-flow path: `locals[i]` is the reference of
the node currently holding local i's value; the empty list is the
Unreachable state. -/
abbrev Locals := List Nat

/-- Builder::FlowState: a local state paired with a condition node. -/
structure FlowState where
  locals : Locals
  condition : Nat
deriving DecidableEq, Repr

/-- The break-state registry: label name to captured local-state snapshots
(std::unordered_map, modelled as an association list; the builder only ever
looks entries up by name). -/
abbrev BreakStates := List (String × List Locals)

/-- Registry lookup (unordered_map::find). -/
def lookupBS (m : BreakStates) (n : String) : Option (List Locals) :=
  match m with
  | [] => none
  | (k, v) :: rest => if k = n then some v else lookupBS rest n

/-- breakStates[name].push_back(locals): append a snapshot to a label's
list, creating the entry if absent (operator[] semantics). -/
def pushBS (m : BreakStates) (n : String) (l : Locals) : BreakStates :=
  match m with
  | [] => [(n, [l])]
  | (k, v) :: rest => if k = n then (k, v ++ [l]) :: rest else (k, v) :: pushBS rest n l

/-- breakStates[name] on the reading side: operator[] creates an empty
entry when the name is absent (visitLoop does this). -/
def ensureBS (m : BreakStates) (n : String) : BreakStates :=
  match m with
  | [] => [(n, [])]
  | (k, v) :: rest => if k = n then (k, v) :: rest else (k, v) :: ensureBS rest n

/-- The builder's mutable state: the node arena (slot 0 is the canonical
Bad node), the current local state, the break-state registry, and the set
registry.  A set-registry entry records the local index assigned and the
node reference stored (the source keeps the ordered list of SetLocal
expressions plus a map from each to its value node; with expressions
embedded structurally the pair carries the same information).  The
parentMap and expressionConditionMap registries are consumer metadata and
are not modelled; no settled claim depends on their contents. -/
structure BState where
  arena : List DNode
  locals : Locals
  brks : BreakStates
  sets : List (Nat × Nat)
deriving DecidableEq, Repr

/-- setInReachable: `locals.resize(numLocals)` (vector::resize pads with
null pointers, all overwritten before being read; badRef stands in for the
dead padding value). -/
def padTo (n : Nat) (l : Locals) : Locals :=
  (l ++ List.replicate (n - l.length) badRef).take n

/-- The lazy Block allocation of Builder::merge: allocate the Block node,
then one Cond wrapper per non-Bad input condition (Bad conditions are added
as-is), then write the condition list into the Block node. -/
def allocBlockConds (sts : List FlowState) (a : List DNode) : Nat × List DNode :=
  let b := addN a ⟨.blockK, []⟩
  let ca := sts.enum.foldl
    (fun (acc2 : List Nat × List DNode) p =>
      let c := p.2.condition
      if c ≠ badRef then
        let cn := addN acc2.2 ⟨.cond b.1 p.1, [c]⟩
        (acc2.1 ++ [cn.1], cn.2)
      else
        (acc2.1 ++ [c], acc2.2))
    ([], b.2)
  (b.1, setValues ca.2 b.1 ca.1)

/-- The Phi allocation of Builder::merge: allocate the Phi on the Block,
then i1-expand each input state's slot (possibly allocating Zexts), then
write the input list into the Phi node. -/
def allocPhi (sts : List FlowState) (i : Nat) (blkRef : Nat) (a : List DNode) :
    Nat × List DNode :=
  let ph := addN a ⟨.phi blkRef, []⟩
  let ins := sts.foldl
    (fun (acc2 : List Nat × List DNode) st =>
      let e := expandFromI1 acc2.2 (st.locals.getD i badRef)
      (acc2.1 ++ [e.1], e.2))
    ([], ph.2)
  (ph.1, setValues ins.2 ph.1 ins.1)

/-- One index of the merge loop of Builder::merge: if any input slot is
Bad the output slot is Bad; else if all input slots are reference-identical
the output slot is that reference; else lazily allocate the Block (with its
Cond-wrapped conditions) at most once and a Phi over the i1-expanded input
slots. -/
def mergeIndex (sts : List FlowState) (acc : List DNode × Locals × Option Nat) (i : Nat) :
    List DNode × Locals × Option Nat :=
  let a := acc.1
  let out := acc.2.1
  let blk := acc.2.2
  if sts.any (fun st => st.locals.getD i badRef = badRef) then
    (a, out.set i badRef, blk)
  else
    let first := (sts.headD ⟨[], badRef⟩).locals.getD i badRef
    if sts.all (fun st => st.locals.getD i badRef = first) then
      (a, out.set i first, blk)
    else
      let ba : Nat × List DNode :=
        match blk with
        | some b => (b, a)
        | none => allocBlockConds sts a
      let ph := allocPhi sts i ba.1 ba.2
      (ph.2, out.set i ph.1, some ba.1)

/-- Builder::merge: drop Unreachable input states; none left keeps the
output as it was; exactly one left copies its locals; otherwise run the
per-index loop over all locals, lazily allocating at most one Block. -/
def merge (f : WFunc) (states : List FlowState) (s : BState) : BState :=
  let sts := states.filter (fun st => !st.locals.isEmpty)
  if sts.length = 0 then s
  else if sts.length = 1 then { s with locals := (sts.headD ⟨[], badRef⟩).locals }
  else
    let n := f.localTypes.length
    let fin := (localIndices f).foldl (mergeIndex sts) (s.arena, padTo n s.locals, none)
    { s with arena := fin.1, locals := fin.2.1 }

/-- Builder::mergeIf: build the two arm conditions (ensureI1 of the
condition and its zero-equality) when the condition is not Bad, then merge
the two states (the expressionConditionMap side entry is metadata and not
modelled). -/
def mergeIf (f : WFunc) (aState bState : Locals) (condition : Nat) (s : BState) : BState :=
  if condition ≠ badRef then
    let t := ensureI1 s.arena condition
    let e := makeZeroComp t.2 condition true
    merge f [⟨aState, t.1⟩, ⟨bState, e.1⟩] { s with arena := e.2 }
  else
    merge f [⟨aState, badRef⟩, ⟨bState, badRef⟩] s

/-- Builder::mergeBlock: merge break states with Bad conditions. -/
def mergeBlock (f : WFunc) (localses : List Locals) (s : BState) : BState :=
  merge f (localses.map (fun l => ⟨l, badRef⟩)) s

/-- Rewrite one node of the loop-body suffix: replace child references that
are (reference-)identical to `var` with `proper`. -/
def rewriteNode (var proper : Nat) (nd : DNode) : DNode :=
  ⟨nd.kind, nd.values.map (fun v => if v = var then proper else v)⟩

/-- The loop-phi undo of Builder::visitLoop: rewrite every node added since
the checkpoint `cp`. -/
def rewriteArenaFrom (cp var proper : Nat) (a : List DNode) : List DNode :=
  a.take cp ++ (a.drop cp).map (rewriteNode var proper)

/-- One local index of the loop-phi resolution of Builder::visitLoop: a phi
is needed when some captured break state differs structurally from both the
inserted Var and the pre-loop value; if no phi is needed, references to the
Var are replaced by the pre-loop value in the loop-body arena suffix and in
the outgoing locals. -/
def resolveIndex (cp : Nat) (vars previous : Locals) (breaks : List Locals)
    (st : List DNode × Locals) (i : Nat) : List DNode × Locals :=
  let var := vars.getD i badRef
  let proper := previous.getD i badRef
  let needPhi := breaks.any (fun other =>
    !(structEq st.1 (other.getD i badRef) var) && !(structEq st.1 (other.getD i badRef) proper))
  if needPhi then st
  else
    (rewriteArenaFrom cp var proper st.1,
     st.2.map (fun v => if v = var then proper else v))

/-- The full loop-phi resolution pass: fold resolveIndex over all local
indices. -/
def loopResolve (f : WFunc) (cp : Nat) (vars previous : Locals) (breaks : List Locals)
    (st : List DNode × Locals) : List DNode × Locals :=
  (localIndices f).foldl (resolveIndex cp vars previous breaks) st

mutual
/-- The Builder visitor (Visitor<Builder, Node*>), as one dispatch on the
expression variant.  Returns the node reference for the expression and the
updated builder state. -/
def visit (f : WFunc) : WExpr → BState → Nat × BState
  | .block nameO kids, s =>
    let s1 := visitList f kids s
    match nameO with
    | none => (badRef, s1)
    | some nm =>
      match lookupBS s1.brks nm with
      | none => (badRef, s1)
      | some _ =>
        let m := pushBS s1.brks nm s1.locals
        let sts := (lookupBS m nm).getD []
        (badRef, mergeBlock f sts { s1 with brks := m })
  | .loop nameO body, s =>
    match nameO with
    | none =>
      let r := visit f body s
      (badRef, r.2)
    | some nm =>
      let previous := s.locals
      let s1 := (localIndices f).foldl
        (fun (st : BState) i =>
          let v := makeVar (f.localTypes.getD i .f32) st.arena
          { st with arena := v.2, locals := st.locals.set i v.1 }) s
      let vars := s1.locals
      let cp := s1.arena.length
      let s2 := (visit f body s1).2
      let m := ensureBS s2.brks nm
      let breaks := (lookupBS m nm).getD []
      let fin := loopResolve f cp vars previous breaks (s2.arena, s2.locals)
      (badRef, { s2 with arena := fin.1, locals := fin.2, brks := m })
  | .ifElse c t e, s =>
    let rc := visit f c s
    let ini := rc.2.locals
    let s2 := (visit f t rc.2).2
    let aT := s2.locals
    let s3 := (visit f e { s2 with locals := ini }).2
    let aF := s3.locals
    (badRef, mergeIf f aT aF rc.1 s3)
  | .ifNoElse c t, s =>
    let rc := visit f c s
    let ini := rc.2.locals
    let s2 := (visit f t rc.2).2
    let aT := s2.locals
    (badRef, mergeIf f ini aT rc.1 s2)
  | .brk nm hasCondition, s =>
    (badRef, { s with brks := pushBS s.brks nm s.locals,
                      locals := if hasCondition then s.locals else [] })
  | .swtch targets dflt, s =>
    let names := (targets ++ [dflt]).dedup
    let s1 := names.foldl (fun (st : BState) nm => { st with brks := pushBS st.brks nm st.locals }) s
    (badRef, { s1 with locals := [] })
  | .getl i, s =>
    if !(isRelevantLocal f i) || s.locals.isEmpty then (badRef, s)
    else (s.locals.getD i badRef, s)
  | .setl i v, s =>
    if !(isRelevantLocal f i) || s.locals.isEmpty then (badRef, s)
    else
      let rv := visit f v s
      (badRef, { rv.2 with locals := rv.2.locals.set i rv.1,
                           sets := rv.2.sets ++ [(i, rv.1)] })
  | .cnst ty v, s =>
    let r := addN s.arena ⟨.expr (.constE ty v), []⟩
    (r.1, { s with arena := r.2 })
  | .un k w v, s =>
    let rv := visit f v s
    let e := expandFromI1 rv.2.arena rv.1
    if e.1 = badRef then (e.1, { rv.2 with arena := e.2 })
    else
      let r := addN e.2 ⟨.expr (.unE k w w.toTy), [e.1]⟩
      (r.1, { rv.2 with arena := r.2 })
  | .eqz _ v, s =>
    let rv := visit f v s
    let e := expandFromI1 rv.2.arena rv.1
    if e.1 = badRef then (e.1, { rv.2 with arena := e.2 })
    else
      let r := makeZeroComp e.2 e.1 true
      (r.1, { rv.2 with arena := r.2 })
  | .unOther ty _, s =>
    let r := makeVar ty s.arena
    (r.1, { s with arena := r.2 })
  | .bin k w l r, s =>
    match flipK k with
    | none =>
      let rl := visit f l s
      let el := expandFromI1 rl.2.arena rl.1
      if el.1 = badRef then (el.1, { rl.2 with arena := el.2 })
      else
        let rr := visit f r { rl.2 with arena := el.2 }
        let er := expandFromI1 rr.2.arena rr.1
        if er.1 = badRef then (er.1, { rr.2 with arena := er.2 })
        else
          let rb := addN er.2 ⟨.expr (.binE k w (binResTy k w)), [el.1, er.1]⟩
          (rb.1, { rr.2 with arena := rb.2 })
    | some k2 =>
      let rl := visit f r s
      let el := expandFromI1 rl.2.arena rl.1
      if el.1 = badRef then (el.1, { rl.2 with arena := el.2 })
      else
        let rr := visit f l { rl.2 with arena := el.2 }
        let er := expandFromI1 rr.2.arena rr.1
        if er.1 = badRef then (er.1, { rr.2 with arena := er.2 })
        else
          let rb := addN er.2 ⟨.expr (.binE k2 w (binResTy k2 w)), [el.1, er.1]⟩
          (rb.1, { rr.2 with arena := rb.2 })
  | .binOther ty _ _, s =>
    let r := makeVar ty s.arena
    (r.1, { s with arena := r.2 })
  | .sel ty t e c, s =>
    let rt := visit f t s
    let et := expandFromI1 rt.2.arena rt.1
    if et.1 = badRef then (et.1, { rt.2 with arena := et.2 })
    else
      let re := visit f e { rt.2 with arena := et.2 }
      let ee := expandFromI1 re.2.arena re.1
      if ee.1 = badRef then (ee.1, { re.2 with arena := ee.2 })
      else
        let rc := visit f c { re.2 with arena := ee.2 }
        let ec := ensureI1 rc.2.arena rc.1
        if ec.1 = badRef then (ec.1, { rc.2 with arena := ec.2 })
        else
          let rs := addN ec.2 ⟨.expr (.selE ty), [ec.1, et.1, ee.1]⟩
          (rs.1, { rc.2 with arena := rs.2 })
  | .varLike ty, s =>
    let r := makeVar ty s.arena
    (r.1, { s with arena := r.2 })
  | .inert, s => (badRef, s)
  | .unreach, s => (badRef, { s with locals := [] })

/-- Visit each child of a block in order, discarding the returned
references. -/
def visitList (f : WFunc) : WExprList → BState → BState
  | .nil, s => s
  | .cons e rest, s => visitList f rest (visit f e s).2
end

/-- The empty builder state before local-state initialization: the arena
holding only the canonical Bad node, and the Unreachable (empty) locals. -/
def initB : BState := ⟨[badNode], [], [], []⟩

/-- One index of the constructor's local-state initialization loop: a
parameter gets a fresh Var of its declared type (Bad when not relevant),
any other local a zero constant of its declared type. -/
def initStep (f : WFunc) (st : BState) (i : Nat) : BState :=
  let ty := f.localTypes.getD i .f32
  let nd := if i < f.params then makeVar ty st.arena else makeZero ty st.arena
  { st with arena := nd.2, locals := st.locals.set i nd.1 }

/-- The local-state initialization loop of the Builder constructor:
setInReachable, then parameters get fresh Vars and other locals get zero
constants, each of its declared type. -/
def initStateF (f : WFunc) : BState :=
  (localIndices f).foldl (initStep f)
    (BState.mk [badNode] (List.replicate f.localTypes.length badRef) [] [])

/-- The Builder constructor: if the function has no locals it returns
immediately ("nothing to do"); otherwise it initializes the local state and
visits the function body. -/
def buildFunc (f : WFunc) (body : WExpr) : BState :=
  if f.localTypes.length = 0 then initB
  else (visit f body (initStateF f)).2

end DataFlow

namespace StackW

/-- The binary opcodes the embedded writer fragment emits
(BinaryConsts). -/
inductive OpB where
  | unreachableB
  | nopB
  | i32ConstB
  | tableSwitchB
deriving DecidableEq, Repr

/-- One item appended to the writer's output buffer: an opcode byte, an
unsigned LEB, or a signed LEB. -/
inductive OutItem where
  | op (b : OpB)
  | leb (n : Nat)
  | sleb (v : Int)
deriving DecidableEq, Repr

/-- The writer state: the output buffer `o` and the break stack (a vector
whose back is the top). -/
structure WState where
  buffer : List OutItem
  breakStack : List String
deriving DecidableEq, Repr

/-- Writer::getBreakIndex's downward scan: `i` counts how many stack slots
(from the bottom) are still unscanned; the source iterates
`i = size-1 .. 0` and returns `size-1-i` at the first hit. -/
def getBreakIndexAux (stack : List String) (n : String) : Nat → Option Nat
  | 0 => none
  | i + 1 =>
    if stack.getD i "" = n then some (stack.length - 1 - i)
    else getBreakIndexAux stack n i

/-- Writer::getBreakIndex: the distance from the top of the nearest-to-top
occurrence of the name; a miss is a fatal abort in the source, modelled as
`none`. -/
def getBreakIndex (stack : List String) (n : String) : Option Nat :=
  getBreakIndexAux stack n stack.length

/-- Writer::getBreakIndex as a writer-state operation: it only reads the
break stack (the diagnostic on a miss goes to stderr, not to the output
buffer), so the state component is returned untouched. -/
def getBreakIndexW (st : WState) (n : String) : Option Nat × WState :=
  (getBreakIndex st.breakStack n, st)

/-- The fragment of the writer's source expressions needed here: an
Unreachable, a Nop, an i32 constant, and a Switch with or without a value
operand. -/
inductive SExpr where
  | sUnreach
  | sNop
  | sConstI32 (v : Int)
  | sSwitch0 (c : SExpr) (targets : List String) (dflt : String)
  | sSwitch1 (value : SExpr) (c : SExpr) (targets : List String) (dflt : String)

/-- The static type of a writer expression (the `type` field binaryen's
type system puts on each expression): Unreachable and Switch have
unreachable type, Nop has none, an i32 constant has i32. -/
def typeOfS : SExpr → DataFlow.WType
  | .sUnreach => .unreachT
  | .sNop => .noneT
  | .sConstI32 _ => .i32
  | .sSwitch0 _ _ _ => .unreachT
  | .sSwitch1 _ _ _ _ => .unreachT

/-- Modelled from the spec: BranchUtils::isBranchReachable is not in the
sources; a Switch's branch is statically unreachable when its condition
(or its value, when present) has unreachable type. -/
def branchReachable0 (c : SExpr) : Bool :=
  typeOfS c ≠ .unreachT

/-- Modelled from the spec: the value-carrying variant of
branchReachable0. -/
def branchReachable1 (value c : SExpr) : Bool :=
  typeOfS value ≠ .unreachT && typeOfS c ≠ .unreachT

/-- Emit the break-stack indices of the switch targets, failing (process
abort) if any name is missing. -/
def emitTargets (stack : List String) : List String → Option (List OutItem)
  | [] => some []
  | t :: rest =>
    match getBreakIndex stack t with
    | none => none
    | some k =>
      match emitTargets stack rest with
      | none => none
      | some items => some (OutItem.leb k :: items)

/-- Writer::visit for the embedded fragment.  Process aborts (a break name
missing from the stack) are modelled as `none`.  visitSwitch recurses into
the value (if any) and the condition, then either emits a lone Unreachable
(branch statically unreachable) or TableSwitch, the target count, each
target's break index and the default's index. -/
def visitS : SExpr → WState → Option WState
  | .sUnreach, st => some { st with buffer := st.buffer ++ [.op .unreachableB] }
  | .sNop, st => some { st with buffer := st.buffer ++ [.op .nopB] }
  | .sConstI32 v, st => some { st with buffer := st.buffer ++ [.op .i32ConstB, .sleb v] }
  | .sSwitch0 c targets dflt, st =>
    match visitS c st with
    | none => none
    | some st1 =>
      if !branchReachable0 c then
        some { st1 with buffer := st1.buffer ++ [.op .unreachableB] }
      else
        match emitTargets st1.breakStack targets with
        | none => none
        | some items =>
          match getBreakIndex st1.breakStack dflt with
          | none => none
          | some kd =>
            some { st1 with buffer :=
              st1.buffer ++ [.op .tableSwitchB, .leb targets.length] ++ items ++ [.leb kd] }
  | .sSwitch1 value c targets dflt, st =>
    match visitS value st with
    | none => none
    | some st0 =>
      match visitS c st0 with
      | none => none
      | some st1 =>
        if !branchReachable1 value c then
          some { st1 with buffer := st1.buffer ++ [.op .unreachableB] }
        else
          match emitTargets st1.breakStack targets with
          | none => none
          | some items =>
            match getBreakIndex st1.breakStack dflt with
            | none => none
            | some kd =>
              some { st1 with buffer :=
                st1.buffer ++ [.op .tableSwitchB, .leb targets.length] ++ items ++ [.leb kd] }

end StackW

namespace DataFlow

/-- The number of Block nodes in an arena. -/
def countBlockNodes (a : List DNode) : Nat :=
  a.countP (fun nd => decide (nd.kind = .blockK))

/-- The number of Phi nodes in an arena. -/
def countPhiNodes (a : List DNode) : Nat :=
  a.countP (fun nd => match nd.kind with | .phi _ => true | _ => false)

/-- Whether an arena satisfies the Bad-propagation property: no Expr node
has a child reference resolving to the canonical Bad node. -/
def badPropagationOk (a : List DNode) : Bool :=
  a.all (fun nd => match nd.kind with
    | .expr _ => nd.values.all (fun v => v ≠ badRef)
    | _ => true)

/-- Concrete input for C1: two i32 parameters, body `(x GtS y)`. -/
def exF1 : WFunc := ⟨2, [.i32, .i32]⟩

/-- Body of the C1 input. -/
def exB1 : WExpr := .bin .gtS .w32 (.getl 0) (.getl 1)

/-- Concrete input for C5: a single f32 parameter. -/
def exF2 : WFunc := ⟨1, [.f32]⟩

/-- Concrete input for C2: one i32 parameter. -/
def exF3 : WFunc := ⟨1, [.i32]⟩

/-- Body of the C2 input: a labelled loop that assigns the local and then
breaks conditionally to the loop label, so the captured break state at
index 0 differs structurally from both the inserted Var and the pre-loop
value while the fall-through value of the local is the constant. -/
def exB3 : WExpr :=
  .loop (some "L")
    (.block none (.cons (.setl 0 (.cnst .i32 5)) (.cons (.brk "L" true) .nil)))

/-- Concrete input for C4: one i32 parameter. -/
def exF4 : WFunc := ⟨1, [.i32]⟩

/-- Body of the C4 input: first a set whose value is an expression the
builder maps to Bad (so the pre-loop value of local 0 is the Bad node),
then a labelled loop whose body reads the local into an Add expression and
breaks conditionally while the local still holds the loop-entry Var, so
loop-phi resolution rewrites the Add's child to the Bad node. -/
def exB4 : WExpr :=
  .block none (.cons (.setl 0 .inert)
    (.cons (.loop (some "L")
      (.block none (.cons (.brk "L" true)
        (.cons (.setl 0 (.bin .add .w32 (.getl 0) (.cnst .i32 1))) .nil))))
      .nil))

/-- Concrete input for C9: one i32 parameter. -/
def exF5 : WFunc := ⟨1, [.i32]⟩

/-- Body of the C9 input: an Unreachable makes the path unreachable, then
an unconditional break is visited in the unreachable state. -/
def exB5 : WExpr := .block none (.cons .unreach (.cons (.brk "L" false) .nil))

/-- Concrete input for C6: a function with zero locals whose body is a
constant (visitConst always allocates an Expr node when visited). -/
def exF6 : WFunc := ⟨0, []⟩

/-- Body of the C6 input. -/
def exB6 : WExpr := .cnst .i32 5

/-- Whether local i receives a freshly allocated node during the
constructor's initialization loop: non-parameters always do (makeZero has
no relevance check); parameters only when their type is relevant. -/
def allocL (f : WFunc) (i : Nat) : Bool :=
  if i < f.params then isRelevantType (f.localTypes.getD i .f32) else true

/-- The node the initialization loop allocates for local i, if any. -/
def initNodeFor (f : WFunc) (i : Nat) : Option DNode :=
  if i < f.params then
    (if isRelevantType (f.localTypes.getD i .f32) then
      some ⟨.var (f.localTypes.getD i .f32), []⟩
    else none)
  else some ⟨.expr (.constE (f.localTypes.getD i .f32) 0), []⟩

/-- The arena reference local i holds right after initialization: Bad for
a non-relevant parameter, otherwise one past the number of allocations made
for smaller indices. -/
def refAt (f : WFunc) (i : Nat) : Nat :=
  if allocL f i then 1 + ((List.range i).filter (allocL f)).length else badRef

end DataFlow

namespace DataFlow

/-- Generic foldl invariant preservation. -/
theorem foldl_inv {α β : Type} (g : α → β → α) (P : α → Prop) :
    ∀ (l : List β) (init : α), P init → (∀ acc x, x ∈ l → P acc → P (g acc x)) →
      P (l.foldl g init) := by
  intro l
  induction l with
  | nil => intro init h _; exact h
  | cons x xs ih =>
    intro init h hstep
    exact ih (g init x) (hstep init x (List.mem_cons_self x xs) h)
      (fun acc y hy hacc => hstep acc y (List.mem_cons_of_mem x hy) hacc)

/-- Splitting List.range at an interior point. -/
theorem range_split {n i : Nat} (h : i < n) :
    List.range n = List.range i ++ i :: List.range' (i + 1) (n - i - 1) := by
  have h1 : List.range n = List.range' 0 n := List.range_eq_range' n
  have h2 : List.range i = List.range' 0 i := List.range_eq_range' i
  have h3 : List.range' 0 i ++ List.range' (0 + 1 * i) (n - i) 1 = List.range' 0 (n - i + i) 1 :=
    List.range'_append 0 i (n - i) 1
  have h4 : n - i + i = n := by omega
  have h5 : 0 + 1 * i = i := by omega
  rw [h4, h5] at h3
  obtain ⟨m, hm⟩ : ∃ m, n - i = m + 1 := ⟨n - i - 1, by omega⟩
  have hm2 : n - i - 1 = m := by omega
  rw [h1, h2, ← h3, hm2, hm, List.range'_succ]

/-- Folding over a range, split at an interior index. -/
theorem foldl_range_split {α : Type} (g : α → Nat → α) {n i : Nat} (h : i < n) (init : α) :
    (List.range n).foldl g init =
      (List.range' (i + 1) (n - i - 1)).foldl g (g ((List.range i).foldl g init) i) := by
  rw [range_split h, List.foldl_append, List.foldl_cons]

/-- getD after set at the same (in-bounds) index. -/
theorem getD_set_eq {α : Type} (l : List α) (i : Nat) (v d : α) (h : i < l.length) :
    (l.set i v).getD i d = v := by
  rw [List.getD_eq_getElem?_getD, List.getElem?_set]
  simp [h]

/-- getD after set at a different index. -/
theorem getD_set_ne {α : Type} (l : List α) (i j : Nat) (v d : α) (h : i ≠ j) :
    (l.set i v).getD j d = l.getD j d := by
  rw [List.getD_eq_getElem?_getD, List.getElem?_set, if_neg h, ← List.getD_eq_getElem?_getD]

/-- The padded output state has exactly the requested length. -/
theorem padTo_length (n : Nat) (l : Locals) : (padTo n l).length = n := by
  simp [padTo]
  omega

/-- lookupBS after pushBS at the pushed name. -/
theorem lookupBS_pushBS_eq (m : BreakStates) (n : String) (l : Locals) :
    lookupBS (pushBS m n l) n = some ((lookupBS m n).getD [] ++ [l]) := by
  induction m with
  | nil => simp [pushBS, lookupBS]
  | cons kv rest ih =>
    by_cases h : kv.1 = n
    · simp [pushBS, lookupBS, h]
    · simp [pushBS, lookupBS, h, ih]

/-- lookupBS after pushBS at a different name. -/
theorem lookupBS_pushBS_ne (m : BreakStates) (n t : String) (l : Locals) (h : t ≠ n) :
    lookupBS (pushBS m n l) t = lookupBS m t := by
  induction m with
  | nil =>
    have : ¬ (n = t) := fun hh => h hh.symm
    simp [pushBS, lookupBS, this]
  | cons kv rest ih =>
    have hnt : ¬ (n = t) := fun hh => h hh.symm
    have htn : ¬ (t = n) := h
    by_cases hk : kv.1 = n
    · simp [pushBS, lookupBS, hk, hnt]
    · by_cases ht : kv.1 = t
      · simp [pushBS, lookupBS, hk, ht, htn]
      · simp [pushBS, lookupBS, hk, ht, ih]

end DataFlow

namespace DataFlow

/-- C1: evaluating the builder at the failing input — a body `(x GtS y)`
with two i32 parameters.  The arena the source produces contains an Expr
with operator LeS (not LtS) over (Var y, Var x): the source's "opposite"
table maps Gt to Le and Ge to Lt with swapped operands, which changes the
comparison's meaning (`x GtS y` is represented as `y LeS x`, i.e.
`x GeS y`), while the claim and the spec require the semantics-preserving
`y LtS x`.  The second conjunct shows no LtS Expr exists in the arena. -/
theorem claim_C1_theorem :
    (buildFunc exF1 exB1).arena =
      [badNode, ⟨.var .i32, []⟩, ⟨.var .i32, []⟩,
       ⟨.expr (.binE .leS .w32 .i32), [2, 1]⟩] ∧
    (buildFunc exF1 exB1).arena.all
      (fun nd => nd.kind ≠ .expr (.binE .ltS .w32 .i32)) = true := by
  constructor
  · rfl
  · rfl

/-- C2 counterexample: in the loop of exF3/exB3 the body assigns constant
5 to local 0 and then breaks conditionally, so the captured break state at
index 0 (the constant node, reference 3) differs structurally from both
the inserted Var (reference 2) and the pre-loop value (reference 1) — the
claim's "otherwise" case.  The claim then says vars[0] "remains the value
of locals[0]", but the outgoing locals hold the constant node, not the
Var. -/
theorem claim_C2_cex :
    lookupBS (buildFunc exF3 exB3).brks "L" = some [[3]] ∧
    structEq (buildFunc exF3 exB3).arena 3 2 = false ∧
    structEq (buildFunc exF3 exB3).arena 3 1 = false ∧
    (buildFunc exF3 exB3).arena.getD 2 badNode = ⟨.var .i32, []⟩ ∧
    (buildFunc exF3 exB3).locals = [3] ∧
    (buildFunc exF3 exB3).arena.getD 3 badNode = ⟨.expr (.constE .i32 5), []⟩ := by
  exact ⟨rfl, rfl, rfl, rfl, rfl, rfl⟩

/-- C4 counterexample: in exF4/exB4 the pre-loop value of local 0 is the
canonical Bad node (its set stored an expression the builder maps to Bad);
the loop body builds an Add Expr over the loop-entry Var, and loop-phi
resolution — finding every break state equal to that Var — rewrites the
Var reference inside the Add Expr to the pre-loop value, i.e. to Bad.  The
final arena therefore contains an Expr node with a child resolving to Bad,
falsifying the claimed arena-wide invariant. -/
theorem claim_C4_cex :
    badPropagationOk (buildFunc exF4 exB4).arena = false ∧
    (buildFunc exF4 exB4).arena.getD 4 badNode =
      ⟨.expr (.binE .add .w32 .i32), [badRef, 3]⟩ := by
  exact ⟨rfl, rfl⟩

/-- C5 counterexample: for a function whose single parameter has type f32,
makeVar returns the canonical Bad node (non-integer types are not
relevant), so after initialization the parameter local maps to Bad — not
to a fresh Var of its declared type as the claim states for every input
function "regardless of the locals' types". -/
theorem claim_C5_cex :
    (initStateF exF2).locals = [badRef] ∧
    (initStateF exF2).arena = [badNode] ∧
    ((initStateF exF2).arena.getD ((initStateF exF2).locals.getD 0 badRef) badNode).kind
      ≠ .var .f32 := by
  refine ⟨rfl, rfl, ?_⟩
  decide

/-- C6 counterexample: a function with zero locals whose body is `i32.const
5`.  visitConst always allocates an Expr node, so if the constructor walked
the body the arena would contain that node; instead the constructor returns
early ("nothing to do") and the arena holds only the canonical Bad node. -/
theorem claim_C6_cex :
    (buildFunc exF6 exB6).arena = [badNode] ∧
    ¬ ∃ nd ∈ (buildFunc exF6 exB6).arena, nd.kind = .expr (.constE .i32 5) := by
  refine ⟨rfl, ?_⟩
  decide

/-- C7 counterexample: a Switch whose condition is an Unreachable
expression (so the branch is statically unreachable).  The writer first
recurses into the condition — emitting its Unreachable opcode — and only
then appends the switch's own Unreachable, so the output buffer holds two
items, not "the single Unreachable opcode and nothing else". -/
theorem claim_C7_cex :
    StackW.visitS (.sSwitch0 .sUnreach [] "L") ⟨[], []⟩ =
      some ⟨[.op .unreachableB, .op .unreachableB], []⟩ ∧
    StackW.visitS (.sSwitch0 .sUnreach [] "L") ⟨[], []⟩ ≠
      some ⟨[.op .unreachableB], []⟩ := by
  refine ⟨rfl, ?_⟩
  decide

/-- C9 counterexample: the body of exF5/exB5 reaches an Unreachable (the
locals state becomes empty) and then visits an unconditional Break to
label L.  visitBreak appends the current locals unconditionally, so the
break-state registry for L contains the empty (Unreachable) snapshot,
which the claim says can never happen. -/
theorem claim_C9_cex :
    lookupBS (buildFunc exF5 exB5).brks "L" = some [[]] ∧
    [] ∈ (lookupBS (buildFunc exF5 exB5).brks "L").getD [] := by
  refine ⟨rfl, ?_⟩
  decide

end DataFlow

namespace DataFlow

/-- C10 (confirmed): the per-local writes of visitLoop iterate over all
local indices of the function; they are all in bounds exactly when the
current state is Reachable (locals length equals the local count), and in
the Unreachable (empty) state with at least one local the write at index 0
is past the vector's length (in this total embedding, List.set out of
range is lost — the source's vector indexing there is out of bounds). -/
theorem claim_C10_theorem (f : WFunc) (s : BState) :
    (s.locals.length = f.localTypes.length → ∀ i ∈ localIndices f, i < s.locals.length) ∧
    (s.locals = [] → 0 < f.localTypes.length →
      (∃ i ∈ localIndices f, ¬ i < s.locals.length) ∧
      ∀ r : Nat, s.locals.set 0 r = s.locals) := by
  constructor
  · intro h i hi
    rw [h]
    exact List.mem_range.mp hi
  · intro h hpos
    constructor
    · exact ⟨0, List.mem_range.mpr hpos, by simp [h]⟩
    · intro r
      rw [h]
      rfl

/-- C10 witness: the in-bounds conclusion at a concrete reachable state of
exF3, and the out-of-bounds conclusion at the concrete Unreachable state. -/
theorem claim_C10_witness :
    (∀ i ∈ localIndices exF3, i < (BState.mk [badNode] [5] [] []).locals.length) ∧
    (∃ i ∈ localIndices exF3, ¬ i < (BState.mk [badNode] [] [] []).locals.length) ∧
    (∀ r : Nat, (BState.mk [badNode] [] [] []).locals.set 0 r =
      (BState.mk [badNode] [] [] []).locals) := by
  refine ⟨(claim_C10_theorem exF3 (BState.mk [badNode] [5] [] [])).1 (by decide), ?_, ?_⟩
  · exact ((claim_C10_theorem exF3 (BState.mk [badNode] [] [] [])).2 rfl (by decide)).1
  · exact ((claim_C10_theorem exF3 (BState.mk [badNode] [] [] [])).2 rfl (by decide)).2

/-- C6 (amended): the Builder constructor walks the function body exactly
when the function has at least one local; with zero locals it returns
immediately, leaving the empty initial state (no nodes beyond the canonical
Bad, no registries). -/
theorem claim_C6_theorem (f : WFunc) (body : WExpr) :
    (f.localTypes.length = 0 → buildFunc f body = initB) ∧
    (0 < f.localTypes.length → buildFunc f body = (visit f body (initStateF f)).2) := by
  constructor
  · intro h
    simp [buildFunc, h]
  · intro h
    rw [buildFunc, if_neg (by omega)]

/-- C6 witness: both branches of the amended claim at concrete inputs. -/
theorem claim_C6_witness :
    buildFunc exF6 exB6 = initB ∧
    buildFunc exF3 exB3 = (visit exF3 exB3 (initStateF exF3)).2 :=
  ⟨(claim_C6_theorem exF6 exB6).1 (by decide), (claim_C6_theorem exF3 exB3).2 (by decide)⟩

/-- Folding pushBS over a list of names leaves the entries of names outside
the list untouched. -/
theorem foldPushBS_notmem (loc : Locals) :
    ∀ (names : List String) (m : BreakStates) (t : String), t ∉ names →
      lookupBS (names.foldl (fun acc nm => pushBS acc nm loc) m) t = lookupBS m t := by
  intro names
  induction names with
  | nil => intro m t _; rfl
  | cons nm rest ih =>
    intro m t ht
    have h1 : t ≠ nm := fun h => ht (h ▸ List.mem_cons_self nm rest)
    rw [List.foldl_cons, ih _ t (fun h => ht (List.mem_cons_of_mem nm h)),
      lookupBS_pushBS_ne m nm t loc h1]

/-- Folding pushBS over a duplicate-free list of names appends the snapshot
exactly once to each listed name's entry. -/
theorem foldPushBS_mem (loc : Locals) :
    ∀ (names : List String) (m : BreakStates) (t : String), names.Nodup → t ∈ names →
      lookupBS (names.foldl (fun acc nm => pushBS acc nm loc) m) t =
        some ((lookupBS m t).getD [] ++ [loc]) := by
  intro names
  induction names with
  | nil => intro m t _ h; cases h
  | cons nm rest ih =>
    intro m t hnd ht
    rw [List.foldl_cons]
    rcases List.mem_cons.mp ht with h | h
    · subst h
      have hni : t ∉ rest := (List.nodup_cons.mp hnd).1
      rw [foldPushBS_notmem loc rest _ t hni, lookupBS_pushBS_eq]
    · have hne : t ≠ nm := by
        intro he
        subst he
        exact (List.nodup_cons.mp hnd).1 h
      rw [ih _ t (List.nodup_cons.mp hnd).2 h, lookupBS_pushBS_ne m nm t loc hne]

/-- The switch registration fold only updates the registry component, each
step capturing the (unchanged) incoming locals. -/
theorem swtchFold_eq :
    ∀ (names : List String) (s : BState),
      names.foldl (fun (st : BState) nm => { st with brks := pushBS st.brks nm st.locals }) s =
        { s with brks := names.foldl (fun acc nm => pushBS acc nm s.locals) s.brks } := by
  intro names
  induction names with
  | nil => intro s; rfl
  | cons nm rest ih =>
    intro s
    rw [List.foldl_cons, ih, List.foldl_cons]

/-- C9 (amended): visitBreak appends a copy of the current locals to the
target label's registry list unconditionally — also on Unreachable paths,
in which case the captured snapshot is empty — and visitSwitch does the
same once for every distinct target (cases and default).  Unreachable
snapshots are discarded later by the merge engine, not at capture time. -/
theorem claim_C9_theorem (f : WFunc) (nm : String) (hasC : Bool) (s : BState)
    (targets : List String) (dflt t : String) :
    ((visit f (.brk nm hasC) s).2.brks = pushBS s.brks nm s.locals) ∧
    (lookupBS (visit f (.brk nm hasC) s).2.brks nm =
      some ((lookupBS s.brks nm).getD [] ++ [s.locals])) ∧
    (s.locals = [] → [] ∈ (lookupBS (visit f (.brk nm hasC) s).2.brks nm).getD []) ∧
    (t ∈ targets ∨ t = dflt →
      lookupBS (visit f (.swtch targets dflt) s).2.brks t =
        some ((lookupBS s.brks t).getD [] ++ [s.locals])) := by
  have hb : (visit f (.brk nm hasC) s).2.brks = pushBS s.brks nm s.locals := by
    simp [visit]
  refine ⟨hb, ?_, ?_, ?_⟩
  · rw [hb, lookupBS_pushBS_eq]
  · intro h
    rw [hb, lookupBS_pushBS_eq, h]
    simp
  · intro ht
    have hmem : t ∈ (targets ++ [dflt]).dedup := by
      apply List.mem_dedup.mpr
      rcases ht with h | h
      · exact List.mem_append_left _ h
      · exact h ▸ List.mem_append_right _ (List.mem_singleton.mpr rfl)
    have hv : (visit f (.swtch targets dflt) s).2.brks =
        ((targets ++ [dflt]).dedup).foldl (fun acc nm2 => pushBS acc nm2 s.locals) s.brks := by
      simp [visit, swtchFold_eq]
    rw [hv, foldPushBS_mem s.locals _ _ t (List.nodup_dedup _) hmem]

/-- C9 witness: the empty snapshot lands in the registry when a break is
visited in the Unreachable state, and a switch registers the snapshot under
a listed target. -/
theorem claim_C9_witness :
    ([] ∈ (lookupBS (visit exF3 (.brk "L" false) (BState.mk [badNode] [] [] [])).2.brks "L").getD []) ∧
    lookupBS (visit exF3 (.swtch ["A"] "B") (BState.mk [badNode] [] [] [])).2.brks "A" =
      some [[]] :=
  ⟨(claim_C9_theorem exF3 "L" false (BState.mk [badNode] [] [] []) ["A"] "B" "A").2.2.1 rfl,
   (claim_C9_theorem exF3 "L" false (BState.mk [badNode] [] [] []) ["A"] "B" "A").2.2.2
     (Or.inl (by decide))⟩

end DataFlow

namespace StackW

/-- getBreakIndexAux misses when the name is at none of the scanned
positions. -/
theorem gbiAux_miss (stack : List String) (n : String) :
    ∀ i, (∀ j, j < i → stack.getD j "" ≠ n) → getBreakIndexAux stack n i = none := by
  intro i
  induction i with
  | zero => intro _; rfl
  | succ i ih =>
    intro h
    simp only [getBreakIndexAux]
    rw [if_neg (h i (Nat.lt_succ_self i))]
    exact ih (fun j hj => h j (Nat.lt_succ_of_lt hj))

/-- getBreakIndexAux finds the largest matching position below the scan
start and returns its distance from the top. -/
theorem gbiAux_hit (stack : List String) (n : String) :
    ∀ i, (∃ j, j < i ∧ stack.getD j "" = n) →
      ∃ jm, jm < i ∧ stack.getD jm "" = n ∧
        (∀ j', jm < j' → j' < i → stack.getD j' "" ≠ n) ∧
        getBreakIndexAux stack n i = some (stack.length - 1 - jm) := by
  intro i
  induction i with
  | zero =>
    intro h
    obtain ⟨j, hj, _⟩ := h
    exact absurd hj (Nat.not_lt_zero j)
  | succ i ih =>
    intro h
    obtain ⟨j, hj, hjn⟩ := h
    by_cases hi : stack.getD i "" = n
    · refine ⟨i, Nat.lt_succ_self i, hi, ?_, ?_⟩
      · intro j' h1 h2
        omega
      · simp only [getBreakIndexAux]
        rw [if_pos hi]
    · have hj' : j < i := by
        rcases Nat.lt_succ_iff_lt_or_eq.mp hj with hlt | heq
        · exact hlt
        · exact absurd (heq ▸ hjn) hi
      obtain ⟨jm, h1, h2, h3, h4⟩ := ih ⟨j, hj', hjn⟩
      refine ⟨jm, Nat.lt_succ_of_lt h1, h2, ?_, ?_⟩
      · intro j' hja hjb
        rcases Nat.lt_succ_iff_lt_or_eq.mp hjb with hlt | heq
        · exact h3 j' hja hlt
        · rw [heq]
          exact hi
      · simp only [getBreakIndexAux]
        rw [if_neg hi]
        exact h4

/-- C8 (confirmed): when the name occurs on the break stack, getBreakIndex
returns the distance from the top of the occurrence nearest the top (zero
for the top slot), and the lookup leaves the writer state — in particular
the output buffer — untouched; when the name does not occur it returns no
index at all (the source prints a diagnostic and aborts). -/
theorem claim_C8_theorem (stack : List String) (n : String) (st : WState) :
    (n ∈ stack → ∃ k, getBreakIndex stack n = some k ∧
      stack.getD (stack.length - 1 - k) "" = n ∧
      ∀ j, j < k → stack.getD (stack.length - 1 - j) "" ≠ n) ∧
    (n ∉ stack → getBreakIndex stack n = none) ∧
    (getBreakIndexW st n).2 = st := by
  refine ⟨?_, ?_, rfl⟩
  · intro hm
    obtain ⟨p, hp, hpe⟩ := List.mem_iff_getElem.mp hm
    have hgd : stack.getD p "" = n := by
      rw [List.getD_eq_getElem _ _ hp]
      exact hpe
    obtain ⟨jm, h1, h2, h3, h4⟩ := gbiAux_hit stack n stack.length ⟨p, hp, hgd⟩
    refine ⟨stack.length - 1 - jm, h4, ?_, ?_⟩
    · have he : stack.length - 1 - (stack.length - 1 - jm) = jm := by omega
      rw [he]
      exact h2
    · intro j hj
      have hlt : jm < stack.length - 1 - j := by omega
      have hlt2 : stack.length - 1 - j < stack.length := by omega
      exact h3 _ hlt hlt2
  · intro hm
    apply gbiAux_miss
    intro j hj he
    apply hm
    rw [← he, List.getD_eq_getElem _ _ hj]
    exact List.getElem_mem hj

/-- C8 witness: the lookup at a concrete stack with the name present (its
index, position and minimality) and with the name absent. -/
theorem claim_C8_witness :
    (∃ k, getBreakIndex ["A", "L"] "L" = some k ∧
      (["A", "L"] : List String).getD ((["A", "L"] : List String).length - 1 - k) "" = "L" ∧
      ∀ j, j < k → (["A", "L"] : List String).getD ((["A", "L"] : List String).length - 1 - j) "" ≠ "L") ∧
    getBreakIndex ["A", "L"] "X" = none ∧
    (getBreakIndexW (WState.mk [] ["A", "L"]) "L").2 = WState.mk [] ["A", "L"] :=
  ⟨( claim_C8_theorem ["A", "L"] "L" (WState.mk [] [])).1 (by decide),
   ( claim_C8_theorem ["A", "L"] "X" (WState.mk [] [])).2.1 (by decide),
   ( claim_C8_theorem ["A", "L"] "L" (WState.mk [] ["A", "L"])).2.2⟩

end StackW

namespace StackW

/-- C7 (amended): visitSwitch first recurses into the value (when present)
and into the condition, emitting their output; then, if the branch is
statically unreachable, it appends the single Unreachable opcode and
nothing else (no TableSwitch, no counts, no indices); otherwise it appends
the TableSwitch opcode, the target count, each target's break-stack index
and the default's index. -/
theorem claim_C7_theorem (value c : SExpr) (targets : List String) (dflt : String)
    (st st0 st1 : WState) (items : List OutItem) (kd : Nat) :
    (visitS c st = some st1 →
      (branchReachable0 c = false →
        visitS (.sSwitch0 c targets dflt) st =
          some { st1 with buffer := st1.buffer ++ [.op .unreachableB] }) ∧
      (branchReachable0 c = true →
        emitTargets st1.breakStack targets = some items →
        getBreakIndex st1.breakStack dflt = some kd →
        visitS (.sSwitch0 c targets dflt) st =
          some { st1 with buffer :=
            st1.buffer ++ [.op .tableSwitchB, .leb targets.length] ++ items ++ [.leb kd] })) ∧
    (visitS value st = some st0 → visitS c st0 = some st1 →
      (branchReachable1 value c = false →
        visitS (.sSwitch1 value c targets dflt) st =
          some { st1 with buffer := st1.buffer ++ [.op .unreachableB] }) ∧
      (branchReachable1 value c = true →
        emitTargets st1.breakStack targets = some items →
        getBreakIndex st1.breakStack dflt = some kd →
        visitS (.sSwitch1 value c targets dflt) st =
          some { st1 with buffer :=
            st1.buffer ++ [.op .tableSwitchB, .leb targets.length] ++ items ++ [.leb kd] })) := by
  constructor
  · intro hc
    constructor
    · intro hr
      simp [visitS, hc, hr]
    · intro hr he hd
      simp [visitS, hc, hr, he, hd]
  · intro hv hc
    constructor
    · intro hr
      simp [visitS, hv, hc, hr]
    · intro hr he hd
      simp [visitS, hv, hc, hr, he, hd]

/-- C7 witness: both cases of the amended switch-emission contract at
concrete inputs — an unreachable-condition switch (the condition's output
precedes the lone Unreachable) and a reachable constant-condition switch
(full TableSwitch emission with resolved indices). -/
theorem claim_C7_witness :
    visitS (.sSwitch0 .sUnreach ["L"] "L") (WState.mk [] ["L"]) =
      some (WState.mk [.op .unreachableB, .op .unreachableB] ["L"]) ∧
    visitS (.sSwitch0 (.sConstI32 0) ["L"] "L") (WState.mk [] ["L"]) =
      some (WState.mk
        [.op .i32ConstB, .sleb 0, .op .tableSwitchB, .leb 1, .leb 0, .leb 0] ["L"]) :=
  ⟨((claim_C7_theorem .sUnreach .sUnreach ["L"] "L" (WState.mk [] ["L"])
      (WState.mk [] ["L"]) (WState.mk [.op .unreachableB] ["L"]) [.leb 0] 0).1 rfl).1 rfl,
   ((claim_C7_theorem .sUnreach (.sConstI32 0) ["L"] "L" (WState.mk [] ["L"])
      (WState.mk [] ["L"]) (WState.mk [.op .i32ConstB, .sleb 0] ["L"]) [.leb 0] 0).1 rfl).2
     rfl rfl rfl⟩

end StackW

namespace DataFlow

/-- countP over an arena append. -/
theorem countP_addN (p : DNode → Bool) (a : List DNode) (nd : DNode) :
    List.countP p (addN a nd).2 = List.countP p a + (if p nd then 1 else 0) := by
  simp [addN, List.countP_append, List.countP_cons]

/-- countP is untouched by setValues for predicates that depend only on
the node's kind. -/
theorem countP_setValues (p : DNode → Bool) (hk : ∀ (nd : DNode) (vs : List Nat), p ⟨nd.kind, vs⟩ = p nd) :
    ∀ (a : List DNode) (r : Nat) (vs : List Nat),
      List.countP p (setValues a r vs) = List.countP p a := by
  intro a
  induction a with
  | nil => intro r vs; rfl
  | cons x xs ih =>
    intro r vs
    cases r with
    | zero =>
      have h0 : setValues (x :: xs) 0 vs = ⟨x.kind, vs⟩ :: xs := by
        simp [setValues, List.getD]
      rw [h0, List.countP_cons, List.countP_cons, hk x vs]
    | succ r =>
      have h0 : setValues (x :: xs) (r + 1) vs = x :: setValues xs r vs := by
        simp [setValues, List.getD]
      rw [h0, List.countP_cons, List.countP_cons, ih]

/-- The Block-node count is kind-determined. -/
theorem countB_kindOnly (nd : DNode) (vs : List Nat) :
    (fun nd => decide (nd.kind = DKind.blockK)) (⟨nd.kind, vs⟩ : DNode) =
      (fun nd => decide (nd.kind = DKind.blockK)) nd := rfl

/-- countBlockNodes over an append. -/
theorem countB_addN (a : List DNode) (nd : DNode) :
    countBlockNodes (addN a nd).2 =
      countBlockNodes a + (if nd.kind = .blockK then 1 else 0) := by
  rw [countBlockNodes, countP_addN]
  simp [countBlockNodes]

/-- countBlockNodes is untouched by setValues. -/
theorem countB_setValues (a : List DNode) (r : Nat) (vs : List Nat) :
    countBlockNodes (setValues a r vs) = countBlockNodes a :=
  countP_setValues _ countB_kindOnly a r vs

/-- expandFromI1 never allocates a Block node. -/
theorem countB_expand (a : List DNode) (r : Nat) :
    countBlockNodes (expandFromI1 a r).2 = countBlockNodes a := by
  rw [expandFromI1]
  split
  · rw [countB_addN]
    rfl
  · rfl

/-- makeZeroComp never allocates a Block node. -/
theorem countB_makeZeroComp (a : List DNode) (r : Nat) (eq : Bool) :
    countBlockNodes (makeZeroComp a r eq).2 = countBlockNodes a := by
  rw [makeZeroComp]
  simp only []
  rw [countB_setValues, countB_expand, countB_addN, makeZero, countB_addN]
  rfl

/-- ensureI1 never allocates a Block node. -/
theorem countB_ensureI1 (a : List DNode) (r : Nat) :
    countBlockNodes (ensureI1 a r).2 = countBlockNodes a := by
  rw [ensureI1]
  split
  · exact countB_makeZeroComp a r false
  · rfl

/-- The Phi-node count is kind-determined. -/
theorem countPh_kindOnly (nd : DNode) (vs : List Nat) :
    (fun nd => match nd.kind with | DKind.phi _ => true | _ => false) (⟨nd.kind, vs⟩ : DNode) =
      (fun nd => match nd.kind with | DKind.phi _ => true | _ => false) nd := rfl

/-- countPhiNodes over an append. -/
theorem countPh_addN (a : List DNode) (nd : DNode) :
    countPhiNodes (addN a nd).2 =
      countPhiNodes a + (if (match nd.kind with | DKind.phi _ => true | _ => false) = true then 1 else 0) := by
  rw [countPhiNodes, countP_addN]
  simp [countPhiNodes]

/-- countPhiNodes is untouched by setValues. -/
theorem countPh_setValues (a : List DNode) (r : Nat) (vs : List Nat) :
    countPhiNodes (setValues a r vs) = countPhiNodes a :=
  countP_setValues _ countPh_kindOnly a r vs

/-- expandFromI1 never allocates a Phi node. -/
theorem countPh_expand (a : List DNode) (r : Nat) :
    countPhiNodes (expandFromI1 a r).2 = countPhiNodes a := by
  rw [expandFromI1]
  split
  · rw [countPh_addN]
    rfl
  · rfl

/-- makeZeroComp never allocates a Phi node. -/
theorem countPh_makeZeroComp (a : List DNode) (r : Nat) (eq : Bool) :
    countPhiNodes (makeZeroComp a r eq).2 = countPhiNodes a := by
  rw [makeZeroComp]
  simp only []
  rw [countPh_setValues, countPh_expand, countPh_addN, makeZero, countPh_addN]
  rfl

/-- ensureI1 never allocates a Phi node. -/
theorem countPh_ensureI1 (a : List DNode) (r : Nat) :
    countPhiNodes (ensureI1 a r).2 = countPhiNodes a := by
  rw [ensureI1]
  split
  · exact countPh_makeZeroComp a r false
  · rfl

end DataFlow

namespace DataFlow

/-- allocBlockConds allocates exactly one Block node. -/
theorem countB_allocBlockConds (sts : List FlowState) (a : List DNode) :
    countBlockNodes (allocBlockConds sts a).2 = countBlockNodes a + 1 := by
  rw [allocBlockConds]
  simp only []
  rw [countB_setValues]
  have hfold : ∀ (l : List (Nat × FlowState)) (init : List Nat × List DNode),
      countBlockNodes ((l.foldl
        (fun (acc2 : List Nat × List DNode) p =>
          if p.2.condition ≠ badRef then
            ((acc2.1 ++ [(addN acc2.2 ⟨.cond (addN a ⟨.blockK, []⟩).1 p.1, [p.2.condition]⟩).1],
              (addN acc2.2 ⟨.cond (addN a ⟨.blockK, []⟩).1 p.1, [p.2.condition]⟩).2))
          else (acc2.1 ++ [p.2.condition], acc2.2)) init).2) = countBlockNodes init.2 := by
    intro l
    induction l with
    | nil => intro init; rfl
    | cons x xs ih =>
      intro init
      rw [List.foldl_cons, ih]
      by_cases h : x.2.condition ≠ badRef
      · simp only [if_pos h, countB_addN]
        rfl
      · simp only [if_neg h]
  rw [hfold]
  rw [countB_addN]
  rfl

/-- allocPhi allocates no Block node. -/
theorem countB_allocPhi (sts : List FlowState) (i : Nat) (b : Nat) (a : List DNode) :
    countBlockNodes (allocPhi sts i b a).2 = countBlockNodes a := by
  rw [allocPhi]
  simp only []
  rw [countB_setValues]
  have hfold : ∀ (l : List FlowState) (init : List Nat × List DNode),
      countBlockNodes ((l.foldl
        (fun (acc2 : List Nat × List DNode) st =>
          ((acc2.1 ++ [(expandFromI1 acc2.2 (st.locals.getD i badRef)).1],
            (expandFromI1 acc2.2 (st.locals.getD i badRef)).2))) init).2) =
        countBlockNodes init.2 := by
    intro l
    induction l with
    | nil => intro init; rfl
    | cons x xs ih =>
      intro init
      rw [List.foldl_cons, ih]
      simp only [countB_expand]
  rw [hfold]
  rw [countB_addN]
  rfl

/-- When the slot condition of the merge loop holds at one index (a Bad
input slot, or all slots reference-identical), that index leaves the arena
and the lazy-Block register untouched and only writes the output slot. -/
theorem mergeIndex_id (sts : List FlowState) (a : List DNode) (out : Locals)
    (blk : Option Nat) (i : Nat)
    (h : sts.any (fun st => st.locals.getD i badRef = badRef) = true ∨
      sts.all (fun st =>
        st.locals.getD i badRef = (sts.headD ⟨[], badRef⟩).locals.getD i badRef) = true) :
    ∃ out2, mergeIndex sts (a, out, blk) i = (a, out2, blk) := by
  by_cases h1 : sts.any (fun st => st.locals.getD i badRef = badRef) = true
  · refine ⟨out.set i badRef, ?_⟩
    simp only [mergeIndex]
    rw [if_pos h1]
  · have h2 : sts.all (fun st =>
        st.locals.getD i badRef = (sts.headD ⟨[], badRef⟩).locals.getD i badRef) = true := by
      rcases h with h | h
      · exact absurd h h1
      · exact h
    refine ⟨out.set i ((sts.headD ⟨[], badRef⟩).locals.getD i badRef), ?_⟩
    simp only [mergeIndex]
    rw [if_neg h1, if_pos h2]

/-- Once the lazy Block exists, a merge-loop index never allocates another
one: the Block register and the Block count are preserved. -/
theorem mergeIndex_some (sts : List FlowState) (a : List DNode) (out : Locals)
    (b : Nat) (i : Nat) :
    (mergeIndex sts (a, out, some b) i).2.2 = some b ∧
    countBlockNodes (mergeIndex sts (a, out, some b) i).1 = countBlockNodes a := by
  by_cases h1 : sts.any (fun st => st.locals.getD i badRef = badRef) = true
  · simp only [mergeIndex]
    rw [if_pos h1]
    exact ⟨rfl, rfl⟩
  · by_cases h2 : sts.all (fun st =>
        st.locals.getD i badRef = (sts.headD ⟨[], badRef⟩).locals.getD i badRef) = true
    · simp only [mergeIndex]
      rw [if_neg h1, if_pos h2]
      exact ⟨rfl, rfl⟩
    · simp only [mergeIndex]
      rw [if_neg h1, if_neg h2]
      exact ⟨rfl, countB_allocPhi sts i b a⟩

/-- Before the lazy Block exists, a merge-loop index either leaves the
arena untouched (keeping the register empty) or allocates exactly one
Block. -/
theorem mergeIndex_none (sts : List FlowState) (a : List DNode) (out : Locals) (i : Nat) :
    ((mergeIndex sts (a, out, none) i).2.2 = none ∧
      (mergeIndex sts (a, out, none) i).1 = a) ∨
    ((mergeIndex sts (a, out, none) i).2.2 ≠ none ∧
      countBlockNodes (mergeIndex sts (a, out, none) i).1 = countBlockNodes a + 1) := by
  by_cases h1 : sts.any (fun st => st.locals.getD i badRef = badRef) = true
  · left
    simp only [mergeIndex]
    rw [if_pos h1]
    exact ⟨rfl, rfl⟩
  · by_cases h2 : sts.all (fun st =>
        st.locals.getD i badRef = (sts.headD ⟨[], badRef⟩).locals.getD i badRef) = true
    · left
      simp only [mergeIndex]
      rw [if_neg h1, if_pos h2]
      exact ⟨rfl, rfl⟩
    · right
      simp only [mergeIndex]
      rw [if_neg h1, if_neg h2]
      refine ⟨by simp, ?_⟩
      rw [countB_allocPhi]
      exact countB_allocBlockConds sts a

/-- Under the per-index slot condition at every local index, the whole
merge loop leaves the arena untouched and never allocates the Block. -/
theorem mergeFold_id (sts : List FlowState) (l : List Nat) (a : List DNode) (out : Locals)
    (h : ∀ i ∈ l,
      sts.any (fun st => st.locals.getD i badRef = badRef) = true ∨
      sts.all (fun st =>
        st.locals.getD i badRef = (sts.headD ⟨[], badRef⟩).locals.getD i badRef) = true) :
    (l.foldl (mergeIndex sts) (a, out, none)).1 = a ∧
    (l.foldl (mergeIndex sts) (a, out, none)).2.2 = none := by
  have := foldl_inv (mergeIndex sts)
    (fun acc => acc.1 = a ∧ acc.2.2 = none) l (a, out, none) ⟨rfl, rfl⟩ ?_
  · exact this
  · intro acc x hx hacc
    obtain ⟨ha, hb⟩ := hacc
    obtain ⟨out2, hout⟩ := mergeIndex_id sts acc.1 acc.2.1 acc.2.2 x (h x hx)
    have hacc' : acc = (acc.1, acc.2.1, acc.2.2) := rfl
    rw [hacc', hout, ha, hb]
    exact ⟨rfl, rfl⟩

/-- The merge loop allocates at most one Block over all indices. -/
theorem mergeFold_countB (sts : List FlowState) (l : List Nat) (a : List DNode) (out : Locals) :
    countBlockNodes (l.foldl (mergeIndex sts) (a, out, none)).1 ≤ countBlockNodes a + 1 := by
  have := foldl_inv (mergeIndex sts)
    (fun acc => countBlockNodes acc.1 + (if acc.2.2 = none then 1 else 0) ≤ countBlockNodes a + 1)
    l (a, out, none) (by simp) ?_
  · calc countBlockNodes (l.foldl (mergeIndex sts) (a, out, none)).1
        ≤ countBlockNodes (l.foldl (mergeIndex sts) (a, out, none)).1 +
            (if (l.foldl (mergeIndex sts) (a, out, none)).2.2 = none then 1 else 0) := by
          split <;> omega
      _ ≤ countBlockNodes a + 1 := this
  · intro acc x _ hacc
    obtain ⟨a1, out1, blk1⟩ := acc
    cases blk1 with
    | none =>
      rcases mergeIndex_none sts a1 out1 x with ⟨h1, h2⟩ | ⟨h1, h2⟩
      · rw [h1, h2]
        simpa using hacc
      · rw [h2, if_neg h1]
        simp at hacc
        omega
    | some b =>
      obtain ⟨h1, h2⟩ := mergeIndex_some sts a1 out1 b x
      rw [h1, h2]
      simpa using hacc

end DataFlow

namespace DataFlow

/-- With no reachable input state, merge returns its state unchanged. -/
theorem merge_filter_nil (f : WFunc) (states : List FlowState) (s : BState)
    (h : states.filter (fun st => !st.locals.isEmpty) = []) :
    merge f states s = s := by
  simp only [merge]
  rw [h]
  simp

/-- With exactly one reachable input state, merge copies its locals and
touches nothing else. -/
theorem merge_filter_one (f : WFunc) (states : List FlowState) (s : BState) (st1 : FlowState)
    (h : states.filter (fun st => !st.locals.isEmpty) = [st1]) :
    merge f states s = { s with locals := st1.locals } := by
  simp only [merge]
  rw [h]
  simp

/-- When every local index has a Bad slot or reference-identical slots
across the reachable input states, merge does not allocate anything. -/
theorem merge_arena_id (f : WFunc) (states : List FlowState) (s : BState)
    (h : ∀ i ∈ localIndices f,
      (states.filter (fun st => !st.locals.isEmpty)).any
        (fun st => st.locals.getD i badRef = badRef) = true ∨
      (states.filter (fun st => !st.locals.isEmpty)).all
        (fun st => st.locals.getD i badRef =
          ((states.filter (fun st => !st.locals.isEmpty)).headD ⟨[], badRef⟩).locals.getD i badRef) = true) :
    (merge f states s).arena = s.arena := by
  simp only [merge]
  by_cases h0 : (states.filter (fun st => !st.locals.isEmpty)).length = 0
  · rw [if_pos h0]
  · rw [if_neg h0]
    by_cases h1 : (states.filter (fun st => !st.locals.isEmpty)).length = 1
    · rw [if_pos h1]
    · rw [if_neg h1]
      exact (mergeFold_id (states.filter (fun st => !st.locals.isEmpty)) (localIndices f)
        s.arena (padTo f.localTypes.length s.locals) h).1

/-- merge allocates at most one Block node per call. -/
theorem merge_countB (f : WFunc) (states : List FlowState) (s : BState) :
    countBlockNodes (merge f states s).arena ≤ countBlockNodes s.arena + 1 := by
  simp only [merge]
  by_cases h0 : (states.filter (fun st => !st.locals.isEmpty)).length = 0
  · rw [if_pos h0]
    omega
  · rw [if_neg h0]
    by_cases h1 : (states.filter (fun st => !st.locals.isEmpty)).length = 1
    · rw [if_pos h1]
      simp only []
      omega
    · rw [if_neg h1]
      exact mergeFold_countB (states.filter (fun st => !st.locals.isEmpty)) (localIndices f)
        s.arena (padTo f.localTypes.length s.locals)

/-- When both arms of an if leave every local at the same node reference
(and the arms are reachable), mergeIf allocates neither a Block nor a Phi:
only the condition bookkeeping nodes are added. -/
theorem mergeIf_counts (f : WFunc) (aS : Locals) (c : Nat) (s : BState) (hne : aS ≠ []) :
    countBlockNodes (mergeIf f aS aS c s).arena = countBlockNodes s.arena ∧
    countPhiNodes (mergeIf f aS aS c s).arena = countPhiNodes s.arena := by
  have hE : aS.isEmpty = false := by
    cases aS with
    | nil => exact absurd rfl hne
    | cons x xs => rfl
  have hid : ∀ (c1 c2 : Nat) (s2 : BState),
      (merge f [⟨aS, c1⟩, ⟨aS, c2⟩] s2).arena = s2.arena := by
    intro c1 c2 s2
    apply merge_arena_id
    intro i _
    right
    apply List.all_eq_true.mpr
    intro st hst
    have hfil : ([⟨aS, c1⟩, ⟨aS, c2⟩] : List FlowState).filter (fun st => !st.locals.isEmpty) =
        [⟨aS, c1⟩, ⟨aS, c2⟩] := by
      simp [List.filter, hE]
    rw [hfil] at hst
    rcases List.mem_cons.mp hst with h | h
    · subst h
      simp [hfil]
    · rcases List.mem_cons.mp h with h2 | h2
      · subst h2
        simp [hfil]
      · cases h2
  rw [mergeIf]
  by_cases hc : c ≠ badRef
  · rw [if_pos hc]
    simp only []
    rw [hid]
    constructor
    · rw [countB_makeZeroComp, countB_ensureI1]
    · rw [countPh_makeZeroComp, countPh_ensureI1]
  · rw [if_neg hc]
    rw [hid]
    exact ⟨rfl, rfl⟩

/-- C3 (confirmed): the merge engine discards Unreachable input states; if
none remain the state (in particular its Unreachable locals) is returned
unchanged and nothing is allocated; if exactly one remains its locals are
copied and nothing is allocated; a Block is allocated at most once per
call, and nothing at all is allocated when every local index has a Bad
slot or reference-identical slots across the remaining states — so an if
whose (reachable) arms leave every local at the same node reference
produces no Block and no Phi. -/
theorem claim_C3_theorem (f : WFunc) (states : List FlowState) (s : BState)
    (st1 : FlowState) (aS : Locals) (c : Nat) :
    (states.filter (fun st => !st.locals.isEmpty) = [] → merge f states s = s) ∧
    (states.filter (fun st => !st.locals.isEmpty) = [st1] →
      merge f states s = { s with locals := st1.locals }) ∧
    ((∀ i ∈ localIndices f,
        (states.filter (fun st => !st.locals.isEmpty)).any
          (fun st => st.locals.getD i badRef = badRef) = true ∨
        (states.filter (fun st => !st.locals.isEmpty)).all
          (fun st => st.locals.getD i badRef =
            ((states.filter (fun st => !st.locals.isEmpty)).headD ⟨[], badRef⟩).locals.getD i badRef) = true) →
      (merge f states s).arena = s.arena) ∧
    (countBlockNodes (merge f states s).arena ≤ countBlockNodes s.arena + 1) ∧
    (aS ≠ [] →
      countBlockNodes (mergeIf f aS aS c s).arena = countBlockNodes s.arena ∧
      countPhiNodes (mergeIf f aS aS c s).arena = countPhiNodes s.arena) :=
  ⟨merge_filter_nil f states s,
   merge_filter_one f states s st1,
   merge_arena_id f states s,
   merge_countB f states s,
   mergeIf_counts f aS c s⟩

/-- C3 witness: the contract applied at concrete inputs — an all-Unreachable
merge, a single-survivor merge, an identical-slots merge, and an if-merge
with identical arms. -/
theorem claim_C3_witness :
    merge exF1 [⟨[], badRef⟩] (BState.mk [badNode] [] [] []) = BState.mk [badNode] [] [] [] ∧
    merge exF1 [⟨[], badRef⟩, ⟨[1, 2], badRef⟩] (BState.mk [badNode] [] [] []) =
      { BState.mk [badNode] [] [] [] with locals := [1, 2] } ∧
    (merge exF1 [⟨[1, 2], badRef⟩, ⟨[1, 2], badRef⟩] (BState.mk [badNode] [1, 2] [] [])).arena =
      (BState.mk [badNode] [1, 2] [] []).arena ∧
    countBlockNodes (mergeIf exF1 [1, 2] [1, 2] badRef (BState.mk [badNode] [1, 2] [] [])).arena =
      countBlockNodes (BState.mk [badNode] [1, 2] [] []).arena :=
  ⟨(claim_C3_theorem exF1 [⟨[], badRef⟩] (BState.mk [badNode] [] [] []) ⟨[], badRef⟩ [] badRef).1
     (by decide),
   (claim_C3_theorem exF1 [⟨[], badRef⟩, ⟨[1, 2], badRef⟩] (BState.mk [badNode] [] [] [])
     ⟨[1, 2], badRef⟩ [] badRef).2.1 (by decide),
   (claim_C3_theorem exF1 [⟨[1, 2], badRef⟩, ⟨[1, 2], badRef⟩] (BState.mk [badNode] [1, 2] [] [])
     ⟨[], badRef⟩ [] badRef).2.2.1 (by decide),
   ((claim_C3_theorem exF1 [] (BState.mk [badNode] [1, 2] [] []) ⟨[], badRef⟩ [1, 2] badRef).2.2.2.2
     (by decide)).1⟩

end DataFlow

namespace DataFlow

/-- initNodeFor allocates exactly when allocL says so. -/
theorem initNodeFor_isSome (f : WFunc) (i : Nat) :
    (initNodeFor f i).isSome = allocL f i := by
  rw [initNodeFor, allocL]
  by_cases hp : i < f.params
  · rw [if_pos hp, if_pos hp]
    by_cases hr : isRelevantType (f.localTypes.getD i .f32) = true
    · rw [if_pos hr, hr]
      rfl
    · rw [if_neg hr]
      rw [Bool.not_eq_true] at hr
      rw [hr]
      rfl
  · rw [if_neg hp, if_neg hp]
    rfl

/-- The initialization allocations correspond one-to-one to the allocating
indices. -/
theorem lenFM (f : WFunc) :
    ∀ l : List Nat, (l.filterMap (initNodeFor f)).length = (l.filter (allocL f)).length := by
  intro l
  induction l with
  | nil => rfl
  | cons x xs ih =>
    rw [List.filterMap_cons, List.filter_cons]
    cases hx : initNodeFor f x with
    | none =>
      have ha : allocL f x = false := by
        rw [← initNodeFor_isSome, hx]
        rfl
      rw [ha]
      simpa using ih
    | some nd =>
      have ha : allocL f x = true := by
        rw [← initNodeFor_isSome, hx]
        rfl
      rw [ha]
      simp only [if_pos, List.length_cons]
      rw [ih]

/-- Characterization of the constructor's initialization loop: the arena
is the Bad node followed by one allocation per allocating local in index
order, and each local maps to the reference computed by refAt. -/
theorem initStateF_char (f : WFunc) :
    (initStateF f).arena =
      [badNode] ++ (List.range f.localTypes.length).filterMap (initNodeFor f) ∧
    (initStateF f).locals.length = f.localTypes.length ∧
    ∀ j, (initStateF f).locals.getD j badRef =
      if j < f.localTypes.length then refAt f j else badRef := by
  have main : ∀ m, m ≤ f.localTypes.length →
      ((List.range m).foldl (initStep f)
        (BState.mk [badNode] (List.replicate f.localTypes.length badRef) [] [])).arena =
        [badNode] ++ (List.range m).filterMap (initNodeFor f) ∧
      ((List.range m).foldl (initStep f)
        (BState.mk [badNode] (List.replicate f.localTypes.length badRef) [] [])).locals.length =
        f.localTypes.length ∧
      ∀ j, ((List.range m).foldl (initStep f)
        (BState.mk [badNode] (List.replicate f.localTypes.length badRef) [] [])).locals.getD j badRef =
        if j < m then refAt f j else badRef := by
    intro m
    induction m with
    | zero =>
      intro _
      refine ⟨rfl, by simp [initB], ?_⟩
      intro j
      rw [if_neg (by omega)]
      simp only [List.range_zero, List.foldl_nil]
      rw [List.getD_eq_getElem?_getD, List.getElem?_replicate]
      split <;> rfl
    | succ m ih =>
      intro hm
      have hmn : m < f.localTypes.length := by omega
      obtain ⟨iha, ihl, ihg⟩ := ih (by omega)
      rw [List.range_succ, List.foldl_append, List.foldl_cons, List.foldl_nil]
      have hlen : ((List.range m).foldl (initStep f)
          (BState.mk [badNode] (List.replicate f.localTypes.length badRef) [] [])).arena.length =
          1 + ((List.range m).filter (allocL f)).length := by
        rw [iha]
        simp [lenFM]
        omega
      by_cases hp : m < f.params
      · by_cases hr : isRelevantType (f.localTypes.getD m .f32) = true
        · have ha : allocL f m = true := by
            rw [allocL, if_pos hp]
            exact hr
          have hnd : initNodeFor f m = some ⟨.var (f.localTypes.getD m .f32), []⟩ := by
            rw [initNodeFor, if_pos hp, if_pos hr]
          have hstep : initStep f ((List.range m).foldl (initStep f)
              (BState.mk [badNode] (List.replicate f.localTypes.length badRef) [] [])) m =
              { ((List.range m).foldl (initStep f)
                  (BState.mk [badNode] (List.replicate f.localTypes.length badRef) [] [])) with
                arena := ((List.range m).foldl (initStep f)
                  (BState.mk [badNode] (List.replicate f.localTypes.length badRef) [] [])).arena ++
                    [⟨.var (f.localTypes.getD m .f32), []⟩],
                locals := ((List.range m).foldl (initStep f)
                  (BState.mk [badNode] (List.replicate f.localTypes.length badRef) [] [])).locals.set m
                    (refAt f m) } := by
            rw [initStep]
            simp only [if_pos hp]
            rw [makeVar, if_pos hr, addN]
            simp only []
            rw [hlen]
            rw [refAt, if_pos ha]
          rw [hstep]
          refine ⟨?_, ?_, ?_⟩
          · simp only []
            rw [iha, List.filterMap_append, List.filterMap_cons, hnd]
            simp
          · simp only [List.length_set]
            exact ihl
          · intro j
            by_cases hj : j = m
            · subst hj
              simp only []
              rw [getD_set_eq _ _ _ _ (by omega), if_pos (by omega)]
            · simp only []
              rw [getD_set_ne _ _ _ _ _ (fun he => hj he.symm), ihg j]
              by_cases hjm : j < m
              · rw [if_pos hjm, if_pos (by omega)]
              · rw [if_neg hjm, if_neg (by omega)]
        · have ha : allocL f m = false := by
            rw [allocL, if_pos hp]
            simpa using hr
          have hnd : initNodeFor f m = none := by
            rw [initNodeFor, if_pos hp, if_neg hr]
          have hstep : initStep f ((List.range m).foldl (initStep f)
              (BState.mk [badNode] (List.replicate f.localTypes.length badRef) [] [])) m =
              { ((List.range m).foldl (initStep f)
                  (BState.mk [badNode] (List.replicate f.localTypes.length badRef) [] [])) with
                locals := ((List.range m).foldl (initStep f)
                  (BState.mk [badNode] (List.replicate f.localTypes.length badRef) [] [])).locals.set m
                    badRef } := by
            rw [initStep]
            simp only [if_pos hp]
            rw [makeVar, if_neg hr]
          rw [hstep]
          refine ⟨?_, ?_, ?_⟩
          · simp only []
            rw [iha, List.filterMap_append, List.filterMap_cons, hnd]
            simp
          · simp only [List.length_set]
            exact ihl
          · intro j
            by_cases hj : j = m
            · subst hj
              simp only []
              rw [getD_set_eq _ _ _ _ (by omega), if_pos (by omega)]
              rw [refAt, if_neg (by simp [ha])]
            · simp only []
              rw [getD_set_ne _ _ _ _ _ (fun he => hj he.symm), ihg j]
              by_cases hjm : j < m
              · rw [if_pos hjm, if_pos (by omega)]
              · rw [if_neg hjm, if_neg (by omega)]
      · have ha : allocL f m = true := by
          rw [allocL, if_neg hp]
        have hnd : initNodeFor f m =
            some ⟨.expr (.constE (f.localTypes.getD m .f32) 0), []⟩ := by
          rw [initNodeFor, if_neg hp]
        have hstep : initStep f ((List.range m).foldl (initStep f)
            (BState.mk [badNode] (List.replicate f.localTypes.length badRef) [] [])) m =
            { ((List.range m).foldl (initStep f)
                (BState.mk [badNode] (List.replicate f.localTypes.length badRef) [] [])) with
              arena := ((List.range m).foldl (initStep f)
                (BState.mk [badNode] (List.replicate f.localTypes.length badRef) [] [])).arena ++
                  [⟨.expr (.constE (f.localTypes.getD m .f32) 0), []⟩],
              locals := ((List.range m).foldl (initStep f)
                (BState.mk [badNode] (List.replicate f.localTypes.length badRef) [] [])).locals.set m
                  (refAt f m) } := by
          rw [initStep]
          simp only [if_neg hp]
          rw [makeZero, addN]
          simp only []
          rw [hlen]
          rw [refAt, if_pos ha]
        rw [hstep]
        refine ⟨?_, ?_, ?_⟩
        · simp only []
          rw [iha, List.filterMap_append, List.filterMap_cons, hnd]
          simp
        · simp only [List.length_set]
          exact ihl
        · intro j
          by_cases hj : j = m
          · subst hj
            simp only []
            rw [getD_set_eq _ _ _ _ (by omega), if_pos (by omega)]
          · simp only []
            rw [getD_set_ne _ _ _ _ _ (fun he => hj he.symm), ihg j]
            by_cases hjm : j < m
            · rw [if_pos hjm, if_pos (by omega)]
            · rw [if_neg hjm, if_neg (by omega)]
  have := main f.localTypes.length (Nat.le_refl _)
  rw [initStateF, localIndices]
  exact this

end DataFlow

namespace DataFlow

/-- The arena slot at an allocating local's reference holds exactly the
node the initialization allocated for it. -/
theorem arena_at_refAt (f : WFunc) (i : Nat) (hi : i < f.localTypes.length) (nd : DNode)
    (hnd : initNodeFor f i = some nd) :
    ([badNode] ++ (List.range f.localTypes.length).filterMap (initNodeFor f)).getD
      (refAt f i) badNode = nd := by
  have ha : allocL f i = true := by
    rw [← initNodeFor_isSome, hnd]
    rfl
  rw [refAt, if_pos ha]
  rw [range_split hi, List.filterMap_append, List.filterMap_cons, hnd]
  rw [List.getD_eq_getElem?_getD, List.getElem?_append, if_neg (by simp)]
  have hk : 1 + ((List.range i).filter (allocL f)).length - List.length [badNode] =
      ((List.range i).filter (allocL f)).length := by
    simp
  rw [hk, List.getElem?_append, if_neg (by rw [lenFM]; omega)]
  have h0 : ((List.range i).filter (allocL f)).length -
      ((List.range i).filterMap (initNodeFor f)).length = 0 := by
    rw [lenFM]
    omega
  rw [h0]
  simp

/-- Allocating locals receive strictly increasing references. -/
theorem refAt_lt (f : WFunc) {i j : Nat} (hij : i < j)
    (hi : allocL f i = true) (hj : allocL f j = true) :
    refAt f i < refAt f j := by
  rw [refAt, if_pos hi, refAt, if_pos hj]
  rw [range_split hij, List.filter_append, List.filter_cons, hi]
  simp only [if_pos, List.length_append, List.length_cons]
  omega

/-- A local's initial reference is the Bad reference exactly when nothing
was allocated for it. -/
theorem refAt_bad_iff (f : WFunc) (i : Nat) :
    refAt f i = badRef ↔ allocL f i = false := by
  rw [refAt]
  by_cases h : allocL f i = true
  · rw [if_pos h]
    constructor
    · intro he
      exact absurd he (by simp [badRef])
    · intro he
      rw [h] at he
      cases he
  · rw [if_neg h]
    rw [Bool.not_eq_true] at h
    exact ⟨fun _ => h, fun _ => rfl⟩

/-- C5 (amended): after the constructor's local-state initialization, a
parameter of relevant (integer) type maps to a fresh Var of its declared
type; a parameter of non-relevant type maps to the canonical Bad node (not
to a Var); every non-parameter local maps to a zero-constant Expr of its
declared type regardless of the type; and no two locals with allocated
nodes share a reference — in particular two relevant parameters never
share a Var. -/
theorem claim_C5_theorem (f : WFunc) (i j : Nat) (hi : i < f.localTypes.length)
    (hj : j < f.localTypes.length) :
    (i < f.params → isRelevantType (f.localTypes.getD i .f32) = true →
      (initStateF f).arena.getD ((initStateF f).locals.getD i badRef) badNode =
        ⟨.var (f.localTypes.getD i .f32), []⟩ ∧
      (initStateF f).locals.getD i badRef ≠ badRef) ∧
    (i < f.params → isRelevantType (f.localTypes.getD i .f32) = false →
      (initStateF f).locals.getD i badRef = badRef) ∧
    (f.params ≤ i →
      (initStateF f).arena.getD ((initStateF f).locals.getD i badRef) badNode =
        ⟨.expr (.constE (f.localTypes.getD i .f32) 0), []⟩ ∧
      (initStateF f).locals.getD i badRef ≠ badRef) ∧
    (i ≠ j → (initStateF f).locals.getD i badRef ≠ badRef →
      (initStateF f).locals.getD j badRef ≠ badRef →
      (initStateF f).locals.getD i badRef ≠ (initStateF f).locals.getD j badRef) := by
  obtain ⟨ha, hl, hg⟩ := initStateF_char f
  have hgi : (initStateF f).locals.getD i badRef = refAt f i := by
    rw [hg i, if_pos hi]
  have hgj : (initStateF f).locals.getD j badRef = refAt f j := by
    rw [hg j, if_pos hj]
  refine ⟨?_, ?_, ?_, ?_⟩
  · intro hp hr
    have hnd : initNodeFor f i = some ⟨.var (f.localTypes.getD i .f32), []⟩ := by
      rw [initNodeFor, if_pos hp, if_pos hr]
    constructor
    · rw [hgi, ha]
      exact arena_at_refAt f i hi _ hnd
    · rw [hgi]
      intro h0
      have := (refAt_bad_iff f i).mp h0
      rw [allocL, if_pos hp, hr] at this
      cases this
  · intro hp hr
    rw [hgi]
    apply (refAt_bad_iff f i).mpr
    rw [allocL, if_pos hp]
    exact hr
  · intro hp
    have hnd : initNodeFor f i = some ⟨.expr (.constE (f.localTypes.getD i .f32) 0), []⟩ := by
      rw [initNodeFor, if_neg (by omega)]
    constructor
    · rw [hgi, ha]
      exact arena_at_refAt f i hi _ hnd
    · rw [hgi]
      intro h0
      have := (refAt_bad_iff f i).mp h0
      rw [allocL, if_neg (by omega)] at this
      cases this
  · intro hne hbi hbj
    rw [hgi] at hbi ⊢
    rw [hgj] at hbj ⊢
    have hai : allocL f i = true := by
      rcases Bool.eq_false_or_eq_true (allocL f i) with h | h
      · exact h
      · exact absurd ((refAt_bad_iff f i).mpr h) hbi
    have haj : allocL f j = true := by
      rcases Bool.eq_false_or_eq_true (allocL f j) with h | h
      · exact h
      · exact absurd ((refAt_bad_iff f j).mpr h) hbj
    rcases Nat.lt_or_ge i j with h | h
    · exact Nat.ne_of_lt (refAt_lt f h hai haj)
    · have hji : j < i := by omega
      exact (Nat.ne_of_lt (refAt_lt f hji haj hai)).symm

/-- C5 witness: the amended contract at a function with a relevant i32
parameter, a non-relevant f32 parameter and a non-parameter i64 local. -/
theorem claim_C5_witness :
    (initStateF (WFunc.mk 2 [.i32, .f32, .i64])).arena.getD
        ((initStateF (WFunc.mk 2 [.i32, .f32, .i64])).locals.getD 0 badRef) badNode =
      ⟨.var .i32, []⟩ ∧
    (initStateF (WFunc.mk 2 [.i32, .f32, .i64])).locals.getD 1 badRef = badRef ∧
    (initStateF (WFunc.mk 2 [.i32, .f32, .i64])).arena.getD
        ((initStateF (WFunc.mk 2 [.i32, .f32, .i64])).locals.getD 2 badRef) badNode =
      ⟨.expr (.constE .i64 0), []⟩ ∧
    (initStateF (WFunc.mk 2 [.i32, .f32, .i64])).locals.getD 0 badRef ≠
      (initStateF (WFunc.mk 2 [.i32, .f32, .i64])).locals.getD 2 badRef :=
  ⟨((claim_C5_theorem (WFunc.mk 2 [.i32, .f32, .i64]) 0 2 (by decide) (by decide)).1
      (by decide) (by decide)).1,
   ((claim_C5_theorem (WFunc.mk 2 [.i32, .f32, .i64]) 1 2 (by decide) (by decide)).2.1
      (by decide) (by decide)),
   ((claim_C5_theorem (WFunc.mk 2 [.i32, .f32, .i64]) 2 2 (by decide) (by decide)).2.2.1
      (by decide)).1,
   ((claim_C5_theorem (WFunc.mk 2 [.i32, .f32, .i64]) 0 2 (by decide) (by decide)).2.2.2
      (by decide) (by decide) (by decide))⟩

end DataFlow

namespace DataFlow

/-- The loop-body suffix of a rewritten arena is the node-wise rewrite of
the original suffix. -/
theorem rewriteArenaFrom_drop (cp var proper : Nat) (a : List DNode) :
    (rewriteArenaFrom cp var proper a).drop cp = (a.drop cp).map (rewriteNode var proper) := by
  rw [rewriteArenaFrom]
  by_cases h : cp ≤ a.length
  · have hl : (a.take cp).length = cp := by
      rw [List.length_take]
      omega
    exact List.drop_left' hl
  · have hd : a.drop cp = [] := by
      apply List.drop_eq_nil_of_le
      omega
    have ht : a.take cp = a := by
      apply List.take_of_length_le
      omega
    rw [hd, ht]
    simp [hd]

/-- Replacing a reference by a different one leaves no occurrence of the
replaced reference. -/
theorem not_mem_map_replace (var proper : Nat) (h : proper ≠ var) (l : List Nat) :
    var ∉ l.map (fun v => if v = var then proper else v) := by
  intro hm
  obtain ⟨v, _, he⟩ := List.mem_map.mp hm
  by_cases h2 : v = var
  · rw [if_pos h2] at he
    exact h he
  · rw [if_neg h2] at he
    exact h2 he

/-- Replacing some other reference neither adds nor removes occurrences of
a reference distinct from both sides of the replacement. -/
theorem mem_map_replace_iff (var varX properX : Nat) (h1 : varX ≠ var) (h2 : properX ≠ var)
    (l : List Nat) :
    var ∈ l.map (fun v => if v = varX then properX else v) ↔ var ∈ l := by
  constructor
  · intro hm
    obtain ⟨v, hv, he⟩ := List.mem_map.mp hm
    by_cases hx : v = varX
    · rw [if_pos hx] at he
      exact absurd he h2
    · rw [if_neg hx] at he
      exact he ▸ hv
  · intro hm
    apply List.mem_map.mpr
    exact ⟨var, hm, by rw [if_neg (fun he => h1 he.symm)]⟩

/-- The needPhi branch of loop-phi resolution leaves the state untouched. -/
theorem resolveIndex_phi (cp : Nat) (vars previous : Locals) (breaks : List Locals)
    (st : List DNode × Locals) (i : Nat)
    (h : breaks.any (fun other =>
      !(structEq st.1 (other.getD i badRef) (vars.getD i badRef)) &&
      !(structEq st.1 (other.getD i badRef) (previous.getD i badRef))) = true) :
    resolveIndex cp vars previous breaks st i = st := by
  simp only [resolveIndex]
  rw [h]
  simp

/-- The no-phi branch of loop-phi resolution rewrites the suffix and the
locals. -/
theorem resolveIndex_noPhi (cp : Nat) (vars previous : Locals) (breaks : List Locals)
    (st : List DNode × Locals) (i : Nat)
    (h : breaks.any (fun other =>
      !(structEq st.1 (other.getD i badRef) (vars.getD i badRef)) &&
      !(structEq st.1 (other.getD i badRef) (previous.getD i badRef))) = false) :
    resolveIndex cp vars previous breaks st i =
      (rewriteArenaFrom cp (vars.getD i badRef) (previous.getD i badRef) st.1,
       st.2.map (fun v => if v = vars.getD i badRef then previous.getD i badRef else v)) := by
  simp only [resolveIndex]
  rw [h]
  simp

/-- Once a Var reference is absent from the loop-body suffix and the
locals, the remaining resolution steps never reintroduce it (their
replacements insert only pre-loop values, none of which is that Var). -/
theorem resolveFold_absent (cp : Nat) (vars previous : Locals) (breaks : List Locals)
    (var : Nat) :
    ∀ l : List Nat, (∀ j ∈ l, previous.getD j badRef ≠ var) →
      ∀ st : List DNode × Locals,
        (∀ nd ∈ st.1.drop cp, var ∉ nd.values) → var ∉ st.2 →
        (∀ nd ∈ (l.foldl (resolveIndex cp vars previous breaks) st).1.drop cp,
          var ∉ nd.values) ∧
        var ∉ (l.foldl (resolveIndex cp vars previous breaks) st).2 := by
  intro l
  induction l with
  | nil => intro _ st h1 h2; exact ⟨h1, h2⟩
  | cons x xs ih =>
    intro hprev st h1 h2
    rw [List.foldl_cons]
    have hpx : previous.getD x badRef ≠ var := hprev x (List.mem_cons_self x xs)
    have hrest : ∀ j ∈ xs, previous.getD j badRef ≠ var := fun j hj =>
      hprev j (List.mem_cons_of_mem x hj)
    by_cases hp : breaks.any (fun other =>
        !(structEq st.1 (other.getD x badRef) (vars.getD x badRef)) &&
        !(structEq st.1 (other.getD x badRef) (previous.getD x badRef))) = true
    · rw [resolveIndex_phi cp vars previous breaks st x hp]
      exact ih hrest st h1 h2
    · rw [Bool.not_eq_true] at hp
      rw [resolveIndex_noPhi cp vars previous breaks st x hp]
      apply ih hrest
      · intro nd hnd
        rw [rewriteArenaFrom_drop] at hnd
        obtain ⟨nd0, hnd0, he⟩ := List.mem_map.mp hnd
        rw [← he, rewriteNode]
        intro hm
        obtain ⟨v, hv, hve⟩ := List.mem_map.mp hm
        by_cases hx : v = vars.getD x badRef
        · rw [if_pos hx] at hve
          exact hpx hve
        · rw [if_neg hx] at hve
          exact h1 nd0 hnd0 (hve ▸ hv)
      · intro hm
        obtain ⟨v, hv, hve⟩ := List.mem_map.mp hm
        by_cases hx : v = vars.getD x badRef
        · rw [if_pos hx] at hve
          exact hpx hve
        · rw [if_neg hx] at hve
          exact h2 (hve ▸ hv)

/-- When a Var reference is distinct from every Var and every pre-loop
value handled by the remaining resolution steps, those steps preserve its
occurrences in the suffix nodes and in the locals position by position. -/
theorem occ_step_arena (cp varX properX var : Nat) (h1 : varX ≠ var) (h2 : properX ≠ var)
    (a : List DNode) (p : Nat) :
    var ∈ (((rewriteArenaFrom cp varX properX a).drop cp).getD p badNode).values ↔
    var ∈ ((a.drop cp).getD p badNode).values := by
  rw [rewriteArenaFrom_drop]
  rw [List.getD_eq_getElem?_getD, List.getElem?_map, List.getD_eq_getElem?_getD]
  cases hq : (a.drop cp)[p]? with
  | none => exact Iff.rfl
  | some nd0 =>
    show var ∈ (rewriteNode varX properX nd0).values ↔ var ∈ nd0.values
    rw [rewriteNode]
    exact mem_map_replace_iff var varX properX h1 h2 nd0.values

/-- The locals counterpart of occ_step_arena. -/
theorem occ_step_locals (varX properX var : Nat) (h1 : varX ≠ var) (h2 : properX ≠ var)
    (l : Locals) (p : Nat) :
    (l.map (fun v => if v = varX then properX else v)).getD p badRef = var ↔
    l.getD p badRef = var := by
  rw [List.getD_eq_getElem?_getD, List.getElem?_map, List.getD_eq_getElem?_getD]
  cases hq : l[p]? with
  | none => exact Iff.rfl
  | some v0 =>
    show (if v0 = varX then properX else v0) = var ↔ v0 = var
    by_cases hv : v0 = varX
    · rw [if_pos hv]
      constructor
      · intro he
        exact absurd he h2
      · intro he
        rw [hv] at he
        exact absurd he h1
    · rw [if_neg hv]

/-- Steps whose Var and pre-loop value are both distinct from a given
reference preserve that reference's occurrences in the suffix nodes and in
the locals, position by position. -/
theorem resolveFold_occ (cp : Nat) (vars previous : Locals) (breaks : List Locals)
    (var : Nat) :
    ∀ l : List Nat,
      (∀ j ∈ l, previous.getD j badRef ≠ var ∧ vars.getD j badRef ≠ var) →
      ∀ st : List DNode × Locals,
        (∀ p, var ∈ (((l.foldl (resolveIndex cp vars previous breaks) st).1.drop cp).getD p badNode).values ↔
          var ∈ ((st.1.drop cp).getD p badNode).values) ∧
        (∀ p, (l.foldl (resolveIndex cp vars previous breaks) st).2.getD p badRef = var ↔
          st.2.getD p badRef = var) := by
  intro l
  induction l with
  | nil => intro _ st; exact ⟨fun p => Iff.rfl, fun p => Iff.rfl⟩
  | cons x xs ih =>
    intro hl st
    rw [List.foldl_cons]
    have hx := hl x (List.mem_cons_self x xs)
    have hrest : ∀ j ∈ xs, previous.getD j badRef ≠ var ∧ vars.getD j badRef ≠ var :=
      fun j hj => hl j (List.mem_cons_of_mem x hj)
    by_cases hp : breaks.any (fun other =>
        !(structEq st.1 (other.getD x badRef) (vars.getD x badRef)) &&
        !(structEq st.1 (other.getD x badRef) (previous.getD x badRef))) = true
    · rw [resolveIndex_phi cp vars previous breaks st x hp]
      exact ih hrest st
    · rw [Bool.not_eq_true] at hp
      rw [resolveIndex_noPhi cp vars previous breaks st x hp]
      obtain ⟨iha, ihl2⟩ := ih hrest
        (rewriteArenaFrom cp (vars.getD x badRef) (previous.getD x badRef) st.1,
         st.2.map (fun v => if v = vars.getD x badRef then previous.getD x badRef else v))
      constructor
      · intro p
        exact Iff.trans (iha p)
          (occ_step_arena cp (vars.getD x badRef) (previous.getD x badRef) var
            hx.2 hx.1 st.1 p)
      · intro p
        exact Iff.trans (ihl2 p)
          (occ_step_locals (vars.getD x badRef) (previous.getD x badRef) var
            hx.2 hx.1 st.2 p)

end DataFlow

namespace DataFlow

/-- C2 (amended): consider the loop-phi resolution pass for a labelled
loop (checkpoint cp, inserted Vars, pre-loop values, captured break
states), at a local index i whose inserted Var is fresh (distinct from all
pre-loop values and from the other locals' Vars).  If, in the state the
pass reaches index i, every captured break state holds at i a node
structurally equal to the inserted Var or to the pre-loop value, then
after the whole pass no reference to that Var remains in the nodes added
since the checkpoint nor in the outgoing locals.  Otherwise the pass
leaves the state untouched at index i and the Var's occurrences — in the
suffix nodes and in the locals, including a possibly different value the
body left in locals[i] — survive to the end of the pass. -/
theorem claim_C2_theorem (f : WFunc) (cp : Nat) (vars previous : Locals)
    (breaks : List Locals) (st0 : List DNode × Locals) (i : Nat)
    (hi : i < f.localTypes.length)
    (hproper : previous.getD i badRef ≠ vars.getD i badRef)
    (hfresh : ∀ j, j < f.localTypes.length → previous.getD j badRef ≠ vars.getD i badRef)
    (hdist : ∀ j, j < f.localTypes.length → j ≠ i → vars.getD j badRef ≠ vars.getD i badRef) :
    (breaks.all (fun other =>
        structEq ((List.range i).foldl (resolveIndex cp vars previous breaks) st0).1
          (other.getD i badRef) (vars.getD i badRef) ||
        structEq ((List.range i).foldl (resolveIndex cp vars previous breaks) st0).1
          (other.getD i badRef) (previous.getD i badRef)) = true →
      (∀ nd ∈ (loopResolve f cp vars previous breaks st0).1.drop cp,
        vars.getD i badRef ∉ nd.values) ∧
      vars.getD i badRef ∉ (loopResolve f cp vars previous breaks st0).2) ∧
    (breaks.any (fun other =>
        !(structEq ((List.range i).foldl (resolveIndex cp vars previous breaks) st0).1
          (other.getD i badRef) (vars.getD i badRef)) &&
        !(structEq ((List.range i).foldl (resolveIndex cp vars previous breaks) st0).1
          (other.getD i badRef) (previous.getD i badRef))) = true →
      resolveIndex cp vars previous breaks
        ((List.range i).foldl (resolveIndex cp vars previous breaks) st0) i =
        (List.range i).foldl (resolveIndex cp vars previous breaks) st0 ∧
      (∀ p, vars.getD i badRef ∈
          (((loopResolve f cp vars previous breaks st0).1.drop cp).getD p badNode).values ↔
        vars.getD i badRef ∈
          ((((List.range i).foldl (resolveIndex cp vars previous breaks) st0).1.drop cp).getD
            p badNode).values) ∧
      (∀ p, (loopResolve f cp vars previous breaks st0).2.getD p badRef = vars.getD i badRef ↔
        ((List.range i).foldl (resolveIndex cp vars previous breaks) st0).2.getD p badRef =
          vars.getD i badRef)) := by
  have hsplit : loopResolve f cp vars previous breaks st0 =
      (List.range' (i + 1) (f.localTypes.length - i - 1)).foldl
        (resolveIndex cp vars previous breaks)
        (resolveIndex cp vars previous breaks
          ((List.range i).foldl (resolveIndex cp vars previous breaks) st0) i) := by
    rw [loopResolve, localIndices]
    exact foldl_range_split (resolveIndex cp vars previous breaks) hi st0
  have hmem : ∀ j ∈ List.range' (i + 1) (f.localTypes.length - i - 1),
      i + 1 ≤ j ∧ j < f.localTypes.length := by
    intro j hj
    have := List.mem_range'_1.mp hj
    omega
  constructor
  · intro Hc
    have hnp : breaks.any (fun other =>
        !(structEq ((List.range i).foldl (resolveIndex cp vars previous breaks) st0).1
          (other.getD i badRef) (vars.getD i badRef)) &&
        !(structEq ((List.range i).foldl (resolveIndex cp vars previous breaks) st0).1
          (other.getD i badRef) (previous.getD i badRef))) = false := by
      rw [← Bool.not_eq_true]
      intro hany
      obtain ⟨o, ho, hbo⟩ := List.any_eq_true.mp hany
      have hall := List.all_eq_true.mp Hc o ho
      obtain ⟨hb1, hb2⟩ := Bool.and_eq_true_iff.mp hbo
      rcases Bool.or_eq_true_iff.mp hall with h | h
      · rw [h] at hb1
        cases hb1
      · rw [h] at hb2
        cases hb2
    rw [hsplit, resolveIndex_noPhi cp vars previous breaks _ i hnp]
    apply resolveFold_absent cp vars previous breaks (vars.getD i badRef) _
      (fun j hj => hfresh j (hmem j hj).2)
    · intro nd hnd
      rw [rewriteArenaFrom_drop] at hnd
      obtain ⟨nd0, _, he⟩ := List.mem_map.mp hnd
      rw [← he, rewriteNode]
      exact not_mem_map_replace _ _ hproper _
    · exact not_mem_map_replace _ _ hproper _
  · intro Hn
    have hid := resolveIndex_phi cp vars previous breaks
      ((List.range i).foldl (resolveIndex cp vars previous breaks) st0) i Hn
    refine ⟨hid, ?_, ?_⟩
    · intro p
      rw [hsplit, hid]
      exact (resolveFold_occ cp vars previous breaks (vars.getD i badRef) _
        (fun j hj => ⟨hfresh j (hmem j hj).2,
          hdist j (hmem j hj).2 (by have := (hmem j hj).1; omega)⟩) _).1 p
    · intro p
      rw [hsplit, hid]
      exact (resolveFold_occ cp vars previous breaks (vars.getD i badRef) _
        (fun j hj => ⟨hfresh j (hmem j hj).2,
          hdist j (hmem j hj).2 (by have := (hmem j hj).1; omega)⟩) _).2 p

/-- C2 witness: the rewrite branch of the contract at a concrete loop
configuration — one i32 local, Var reference 2 inserted at loop entry,
pre-loop value 1, one captured break state holding the Var, and a
loop-body Add node referencing the Var: after resolution no reference to
the Var survives. -/
theorem claim_C2_witness :
    (∀ nd ∈ (loopResolve exF3 3 [2] [1] [[2]]
        ([badNode, ⟨.var .i32, []⟩, ⟨.var .i32, []⟩,
          ⟨.expr (.binE .add .w32 .i32), [2, 2]⟩], [3])).1.drop 3,
      ([2] : Locals).getD 0 badRef ∉ nd.values) ∧
    ([2] : Locals).getD 0 badRef ∉ (loopResolve exF3 3 [2] [1] [[2]]
        ([badNode, ⟨.var .i32, []⟩, ⟨.var .i32, []⟩,
          ⟨.expr (.binE .add .w32 .i32), [2, 2]⟩], [3])).2 :=
  (claim_C2_theorem exF3 3 [2] [1] [[2]]
      ([badNode, ⟨.var .i32, []⟩, ⟨.var .i32, []⟩,
        ⟨.expr (.binE .add .w32 .i32), [2, 2]⟩], [3]) 0
      (by decide) (by decide) (by decide) (by decide)).1 (by decide)

end DataFlow

namespace DataFlow

/-- expandFromI1 creates the Bad reference only from the Bad reference. -/
theorem expandFromI1_bad_iff (a : List DNode) (rr : Nat) :
    (expandFromI1 a rr).1 = badRef ↔ rr = badRef := by
  rw [expandFromI1]
  by_cases hc : rr ≠ badRef ∧ returnsI1 a rr
  · rw [if_pos hc]
    constructor
    · intro h
      have ha : a = [] := List.length_eq_zero.mp h
      rw [ha] at hc
      have : returnsI1 [] rr = false := rfl
      rw [this] at hc
      cases hc.2
    · intro h
      exact absurd h hc.1
  · rw [if_neg hc]

/-- The reference of the node at a freshly filled operand list. -/
theorem getD_setValues_self (a : List DNode) (r : Nat) (vs : List Nat) (h : r < a.length) :
    (setValues a r vs).getD r badNode = ⟨(a.getD r badNode).kind, vs⟩ := by
  rw [setValues]
  exact getD_set_eq a r _ badNode h

/-- expandFromI1 never shrinks the arena. -/
theorem expandFromI1_len (a : List DNode) (rr : Nat) :
    a.length ≤ (expandFromI1 a rr).2.length := by
  rw [expandFromI1]
  split
  · simp [addN]
  · exact Nat.le_refl _

/-- A merge-loop index other than i never touches output slot i. -/
theorem mergeIndex_out_ne (sts : List FlowState) (acc : List DNode × Locals × Option Nat)
    (j i : Nat) (d : Nat) (h : j ≠ i) :
    (mergeIndex sts acc j).2.1.getD i d = acc.2.1.getD i d := by
  obtain ⟨a1, out1, blk1⟩ := acc
  by_cases h1 : sts.any (fun st => st.locals.getD j badRef = badRef) = true
  · simp only [mergeIndex]
    rw [if_pos h1]
    exact getD_set_ne out1 j i badRef d h
  · by_cases h2 : sts.all (fun st =>
        st.locals.getD j badRef = (sts.headD ⟨[], badRef⟩).locals.getD j badRef) = true
    · simp only [mergeIndex]
      rw [if_neg h1, if_pos h2]
      exact getD_set_ne out1 j i _ d h
    · simp only [mergeIndex]
      rw [if_neg h1, if_neg h2]
      exact getD_set_ne out1 j i _ d h

/-- The merge loop preserves the output vector's length. -/
theorem mergeIndex_out_len (sts : List FlowState) (acc : List DNode × Locals × Option Nat)
    (j : Nat) :
    (mergeIndex sts acc j).2.1.length = acc.2.1.length := by
  obtain ⟨a1, out1, blk1⟩ := acc
  by_cases h1 : sts.any (fun st => st.locals.getD j badRef = badRef) = true
  · simp only [mergeIndex]
    rw [if_pos h1]
    exact List.length_set out1 j badRef
  · by_cases h2 : sts.all (fun st =>
        st.locals.getD j badRef = (sts.headD ⟨[], badRef⟩).locals.getD j badRef) = true
    · simp only [mergeIndex]
      rw [if_neg h1, if_pos h2]
      exact List.length_set out1 j _
    · simp only [mergeIndex]
      rw [if_neg h1, if_neg h2]
      exact List.length_set out1 j _

/-- A merge-loop index whose slot has a Bad input writes Bad to the output
slot and allocates nothing. -/
theorem mergeIndex_bad_out (sts : List FlowState) (a : List DNode) (out : Locals)
    (blk : Option Nat) (i : Nat)
    (h : sts.any (fun st => st.locals.getD i badRef = badRef) = true) :
    mergeIndex sts (a, out, blk) i = (a, out.set i badRef, blk) := by
  simp only [mergeIndex]
  rw [if_pos h]

end DataFlow

namespace DataFlow

/-- The components of makeZeroComp, spelled out. -/
theorem makeZeroComp_decomp (a : List DNode) (rr : Nat) (eq : Bool) :
    makeZeroComp a rr eq =
      (a.length + 1,
       setValues (expandFromI1 (a ++ [⟨.expr (.constE (getWasmType a a.length rr) 0), []⟩] ++
         [⟨.expr (.binE (if eq then .eqK else .neK) (widthOfTy (getWasmType a a.length rr))
           (getWasmType a a.length rr)), []⟩]) rr).2 (a.length + 1)
         [(expandFromI1 (a ++ [⟨.expr (.constE (getWasmType a a.length rr) 0), []⟩] ++
           [⟨.expr (.binE (if eq then .eqK else .neK) (widthOfTy (getWasmType a a.length rr))
             (getWasmType a a.length rr)), []⟩]) rr).1, a.length]) := by
  simp only [makeZeroComp, makeZero, addN, List.length_append, List.length_singleton]

/-- The synthesized zero-comparison node never carries a Bad child: its
operands are the i1-expansion of the (non-Bad) input and the freshly
allocated zero constant. -/
theorem makeZeroComp_children (a : List DNode) (rr : Nat) (eq : Bool)
    (hlen : 0 < a.length) (hrr : rr ≠ badRef) :
    badRef ∉ ((makeZeroComp a rr eq).2.getD (makeZeroComp a rr eq).1 badNode).values := by
  rw [makeZeroComp_decomp]
  have hB : (a ++ [⟨.expr (.constE (getWasmType a a.length rr) 0), []⟩] ++
      [⟨.expr (.binE (if eq then .eqK else .neK) (widthOfTy (getWasmType a a.length rr))
        (getWasmType a a.length rr)), []⟩] : List DNode).length = a.length + 2 := by
    simp
  have hE := expandFromI1_len (a ++ [⟨.expr (.constE (getWasmType a a.length rr) 0), []⟩] ++
    [⟨.expr (.binE (if eq then .eqK else .neK) (widthOfTy (getWasmType a a.length rr))
      (getWasmType a a.length rr)), []⟩]) rr
  rw [hB] at hE
  rw [getD_setValues_self _ _ _ (by omega)]
  intro hm
  simp only [List.mem_cons, List.not_mem_nil, or_false] at hm
  rcases hm with hm | hm
  · exact hrr ((expandFromI1_bad_iff _ rr).mp hm.symm)
  · rw [badRef] at hm
    omega

/-- ensureI1 yields the Bad reference exactly on the Bad input: a non-Bad
node either already returns i1 (and is passed through unchanged) or is
wrapped in a freshly allocated zero-comparison, never at reference 0. -/
theorem ensureI1_bad_iff (a : List DNode) (r : Nat) :
    (ensureI1 a r).1 = badRef ↔ r = badRef := by
  rw [ensureI1]
  by_cases h : r ≠ badRef ∧ ¬ returnsI1 a r = true
  · rw [if_pos h, makeZeroComp_decomp]
    show a.length + 1 = badRef ↔ r = badRef
    simp only [badRef]
    constructor
    · intro hc
      omega
    · intro hr
      exact absurd hr h.1
  · rw [if_neg h]

/-- C4 (amended): every Expr constructor returns the canonical Bad node
instead of allocating when an operand is Bad, so Expr nodes are allocated
only with non-Bad children, and a merge slot with any Bad input becomes
Bad rather than a Phi: expandFromI1 maps Bad (and only Bad) to Bad; the
zero-comparison node's children are never Bad; both supported binary paths
(the direct one and the Gt/Ge-flipped one with swapped operand visits)
return Bad without allocating as soon as an (expanded) operand is Bad and
otherwise allocate the Expr over two non-Bad children; the unary path
(Clz/Ctz/Popcnt) and the EqZ path return Bad on a Bad operand and
otherwise allocate over the non-Bad operand; the select path returns Bad
as soon as any of its three operands is Bad (the condition through
ensureI1, which maps Bad and only Bad to Bad) and otherwise allocates the
select over three non-Bad children; and merge writes Bad into any output
slot one of whose reachable inputs is Bad. -/
theorem claim_C4_theorem (f : WFunc) (k : IBinKind) (w : IWidth) (l r : WExpr) (s : BState)
    (states : List FlowState) (sB : BState) (i : Nat) (a : List DNode) (rr : Nat) (eq : Bool)
    (ku : IUnKind) (ty : WType) (c : WExpr) :
    (expandFromI1 a badRef = (badRef, a)) ∧
    ((expandFromI1 a rr).1 = badRef ↔ rr = badRef) ∧
    (0 < a.length → rr ≠ badRef →
      badRef ∉ ((makeZeroComp a rr eq).2.getD (makeZeroComp a rr eq).1 badNode).values) ∧
    (flipK k = none →
      ∀ rL sL eL aL, visit f l s = (rL, sL) → expandFromI1 sL.arena rL = (eL, aL) →
        (eL = badRef → visit f (.bin k w l r) s = (badRef, { sL with arena := aL })) ∧
        (eL ≠ badRef →
          ∀ rR sR eR aR, visit f r { sL with arena := aL } = (rR, sR) →
            expandFromI1 sR.arena rR = (eR, aR) →
            (eR = badRef → visit f (.bin k w l r) s = (badRef, { sR with arena := aR })) ∧
            (eR ≠ badRef →
              visit f (.bin k w l r) s =
                ((addN aR ⟨.expr (.binE k w (binResTy k w)), [eL, eR]⟩).1,
                 { sR with arena := (addN aR ⟨.expr (.binE k w (binResTy k w)), [eL, eR]⟩).2 }) ∧
              eL ≠ badRef ∧ eR ≠ badRef))) ∧
    (2 ≤ (states.filter (fun st => !st.locals.isEmpty)).length →
      i < f.localTypes.length →
      (states.filter (fun st => !st.locals.isEmpty)).any
        (fun st => st.locals.getD i badRef = badRef) = true →
      (merge f states sB).locals.getD i badRef = badRef) ∧
    ((ensureI1 a rr).1 = badRef ↔ rr = badRef) ∧
    (∀ rV sV eV aV, visit f l s = (rV, sV) → expandFromI1 sV.arena rV = (eV, aV) →
      (eV = badRef → visit f (.un ku w l) s = (badRef, { sV with arena := aV })) ∧
      (eV ≠ badRef →
        visit f (.un ku w l) s =
          ((addN aV ⟨.expr (.unE ku w w.toTy), [eV]⟩).1,
           { sV with arena := (addN aV ⟨.expr (.unE ku w w.toTy), [eV]⟩).2 }) ∧
        eV ≠ badRef)) ∧
    (∀ rV sV eV aV, visit f l s = (rV, sV) → expandFromI1 sV.arena rV = (eV, aV) →
      (eV = badRef → visit f (.eqz w l) s = (badRef, { sV with arena := aV })) ∧
      (eV ≠ badRef →
        visit f (.eqz w l) s =
          ((makeZeroComp aV eV true).1,
           { sV with arena := (makeZeroComp aV eV true).2 }))) ∧
    (∀ k2, flipK k = some k2 →
      ∀ rL sL eL aL, visit f r s = (rL, sL) → expandFromI1 sL.arena rL = (eL, aL) →
        (eL = badRef → visit f (.bin k w l r) s = (badRef, { sL with arena := aL })) ∧
        (eL ≠ badRef →
          ∀ rR sR eR aR, visit f l { sL with arena := aL } = (rR, sR) →
            expandFromI1 sR.arena rR = (eR, aR) →
            (eR = badRef → visit f (.bin k w l r) s = (badRef, { sR with arena := aR })) ∧
            (eR ≠ badRef →
              visit f (.bin k w l r) s =
                ((addN aR ⟨.expr (.binE k2 w (binResTy k2 w)), [eL, eR]⟩).1,
                 { sR with arena := (addN aR ⟨.expr (.binE k2 w (binResTy k2 w)),
                   [eL, eR]⟩).2 }) ∧
              eL ≠ badRef ∧ eR ≠ badRef))) ∧
    (∀ rT sT eT aT, visit f l s = (rT, sT) → expandFromI1 sT.arena rT = (eT, aT) →
      (eT = badRef → visit f (.sel ty l r c) s = (badRef, { sT with arena := aT })) ∧
      (eT ≠ badRef →
        ∀ rE sE eE aE, visit f r { sT with arena := aT } = (rE, sE) →
          expandFromI1 sE.arena rE = (eE, aE) →
          (eE = badRef → visit f (.sel ty l r c) s = (badRef, { sE with arena := aE })) ∧
          (eE ≠ badRef →
            ∀ rC sC eC aC, visit f c { sE with arena := aE } = (rC, sC) →
              ensureI1 sC.arena rC = (eC, aC) →
              (eC = badRef → visit f (.sel ty l r c) s = (badRef, { sC with arena := aC })) ∧
              (eC ≠ badRef →
                visit f (.sel ty l r c) s =
                  ((addN aC ⟨.expr (.selE ty), [eC, eT, eE]⟩).1,
                   { sC with arena := (addN aC ⟨.expr (.selE ty), [eC, eT, eE]⟩).2 }) ∧
                eC ≠ badRef ∧ eT ≠ badRef ∧ eE ≠ badRef)))) := by
  refine ⟨?_, expandFromI1_bad_iff a rr, makeZeroComp_children a rr eq, ?_, ?_,
    ensureI1_bad_iff a rr, ?_, ?_, ?_, ?_⟩
  · rw [expandFromI1]
    rw [if_neg (fun hc => hc.1 rfl)]
  · intro hflip rL sL eL aL hL hE
    constructor
    · intro hbad
      simp only [visit, hflip, hL, hE]
      rw [if_pos hbad, hbad]
    · intro hgood rR sR eR aR hR hE2
      constructor
      · intro hbad
        simp only [visit, hflip, hL, hE]
        rw [if_neg hgood]
        simp only [hR, hE2]
        rw [if_pos hbad, hbad]
      · intro hgood2
        refine ⟨?_, hgood, hgood2⟩
        simp only [visit, hflip, hL, hE]
        rw [if_neg hgood]
        simp only [hR, hE2]
        rw [if_neg hgood2]
  · intro h2 hi hbad
    simp only [merge]
    rw [if_neg (by omega), if_neg (by omega)]
    simp only [localIndices]
    rw [foldl_range_split (mergeIndex (states.filter (fun st => !st.locals.isEmpty))) hi]
    have hilen : ((List.range i).foldl
        (mergeIndex (states.filter (fun st => !st.locals.isEmpty)))
        (sB.arena, padTo f.localTypes.length sB.locals, none)).2.1.length =
        f.localTypes.length :=
      foldl_inv (mergeIndex (states.filter (fun st => !st.locals.isEmpty)))
        (fun acc => acc.2.1.length = f.localTypes.length) _ _
        (padTo_length _ _)
        (fun acc x _ hacc => by
          show (mergeIndex (states.filter (fun st => !st.locals.isEmpty)) acc x).2.1.length =
            f.localTypes.length
          rw [mergeIndex_out_len]
          exact hacc)
    have hstep : mergeIndex (states.filter (fun st => !st.locals.isEmpty))
        ((List.range i).foldl (mergeIndex (states.filter (fun st => !st.locals.isEmpty)))
          (sB.arena, padTo f.localTypes.length sB.locals, none)) i =
        (((List.range i).foldl (mergeIndex (states.filter (fun st => !st.locals.isEmpty)))
          (sB.arena, padTo f.localTypes.length sB.locals, none)).1,
         ((List.range i).foldl (mergeIndex (states.filter (fun st => !st.locals.isEmpty)))
          (sB.arena, padTo f.localTypes.length sB.locals, none)).2.1.set i badRef,
         ((List.range i).foldl (mergeIndex (states.filter (fun st => !st.locals.isEmpty)))
          (sB.arena, padTo f.localTypes.length sB.locals, none)).2.2) :=
      mergeIndex_bad_out _ _ _ _ i hbad
    rw [hstep]
    exact foldl_inv (mergeIndex (states.filter (fun st => !st.locals.isEmpty)))
      (fun acc => acc.2.1.getD i badRef = badRef) _ _
      (getD_set_eq _ _ _ _ (by rw [hilen]; exact hi))
      (fun acc x hx hacc => by
        show (mergeIndex (states.filter (fun st => !st.locals.isEmpty)) acc x).2.1.getD i badRef =
          badRef
        rw [mergeIndex_out_ne]
        · exact hacc
        · have := List.mem_range'_1.mp hx
          omega)
  · intro rV sV eV aV hV hE
    constructor
    · intro hbad
      simp only [visit, hV, hE]
      rw [if_pos hbad, hbad]
    · intro hgood
      refine ⟨?_, hgood⟩
      simp only [visit, hV, hE]
      rw [if_neg hgood]
  · intro rV sV eV aV hV hE
    constructor
    · intro hbad
      simp only [visit, hV, hE]
      rw [if_pos hbad, hbad]
    · intro hgood
      simp only [visit, hV, hE]
      rw [if_neg hgood]
  · intro k2 hflip rL sL eL aL hL hE
    constructor
    · intro hbad
      simp only [visit, hflip, hL, hE]
      rw [if_pos hbad, hbad]
    · intro hgood rR sR eR aR hR hE2
      constructor
      · intro hbad
        simp only [visit, hflip, hL, hE]
        rw [if_neg hgood]
        simp only [hR, hE2]
        rw [if_pos hbad, hbad]
      · intro hgood2
        refine ⟨?_, hgood, hgood2⟩
        simp only [visit, hflip, hL, hE]
        rw [if_neg hgood]
        simp only [hR, hE2]
        rw [if_neg hgood2]
  · intro rT sT eT aT hT hE1
    constructor
    · intro hbad
      simp only [visit, hT, hE1]
      rw [if_pos hbad, hbad]
    · intro hgoodT rE sE eE aE hEv hE2
      constructor
      · intro hbad
        simp only [visit, hT, hE1]
        rw [if_neg hgoodT]
        simp only [hEv, hE2]
        rw [if_pos hbad, hbad]
      · intro hgoodE rC sC eC aC hCv hE3
        constructor
        · intro hbad
          simp only [visit, hT, hE1]
          rw [if_neg hgoodT]
          simp only [hEv, hE2]
          rw [if_neg hgoodE]
          simp only [hCv, hE3]
          rw [if_pos hbad, hbad]
        · intro hgoodC
          refine ⟨?_, hgoodC, hgoodT, hgoodE⟩
          simp only [visit, hT, hE1]
          rw [if_neg hgoodT]
          simp only [hEv, hE2]
          rw [if_neg hgoodE]
          simp only [hCv, hE3]
          rw [if_neg hgoodC]

/-- C4 witness: the amended contract at concrete inputs — a zero
comparison over a non-Bad node, the direct binary path with a Bad right
operand, a merge with a Bad slot, a unary Clz allocation, an EqZ
zero-comparison allocation, a flipped GtS allocation (operands visited
right-first, LeS node), a full select allocation (condition wrapped by
ensureI1 into Ne(c,0)), and a select whose Bad condition short-circuits. -/
theorem claim_C4_witness :
    (badRef ∉ ((makeZeroComp [badNode, ⟨.var .i32, []⟩] 1 true).2.getD
      (makeZeroComp [badNode, ⟨.var .i32, []⟩] 1 true).1 badNode).values) ∧
    visit exF1 (.bin .add .w32 (.cnst .i32 1) .inert) (BState.mk [badNode] [] [] []) =
      (badRef, BState.mk [badNode, ⟨.expr (.constE .i32 1), []⟩] [] [] []) ∧
    (merge exF1 [⟨[0, 1], badRef⟩, ⟨[1, 1], badRef⟩]
      (BState.mk [badNode] [1, 1] [] [])).locals.getD 0 badRef = badRef ∧
    visit exF1 (.un .clz .w32 (.cnst .i32 1)) (BState.mk [badNode] [] [] []) =
      (2, BState.mk [badNode, ⟨.expr (.constE .i32 1), []⟩,
        ⟨.expr (.unE .clz .w32 .i32), [1]⟩] [] [] []) ∧
    visit exF1 (.eqz .w32 (.cnst .i32 1)) (BState.mk [badNode] [] [] []) =
      (3, BState.mk [badNode, ⟨.expr (.constE .i32 1), []⟩, ⟨.expr (.constE .i32 0), []⟩,
        ⟨.expr (.binE .eqK .w32 .i32), [1, 2]⟩] [] [] []) ∧
    visit exF1 (.bin .gtS .w32 (.cnst .i32 1) (.cnst .i32 2)) (BState.mk [badNode] [] [] []) =
      (3, BState.mk [badNode, ⟨.expr (.constE .i32 2), []⟩, ⟨.expr (.constE .i32 1), []⟩,
        ⟨.expr (.binE .leS .w32 .i32), [1, 2]⟩] [] [] []) ∧
    visit exF1 (.sel .i32 (.cnst .i32 1) (.cnst .i32 2) (.cnst .i32 3))
        (BState.mk [badNode] [] [] []) =
      (6, BState.mk [badNode, ⟨.expr (.constE .i32 1), []⟩, ⟨.expr (.constE .i32 2), []⟩,
        ⟨.expr (.constE .i32 3), []⟩, ⟨.expr (.constE .i32 0), []⟩,
        ⟨.expr (.binE .neK .w32 .i32), [3, 4]⟩, ⟨.expr (.selE .i32), [5, 1, 2]⟩] [] [] []) ∧
    visit exF1 (.sel .i32 (.cnst .i32 1) (.cnst .i32 2) .inert)
        (BState.mk [badNode] [] [] []) =
      (badRef, BState.mk [badNode, ⟨.expr (.constE .i32 1), []⟩,
        ⟨.expr (.constE .i32 2), []⟩] [] [] []) :=
  ⟨(claim_C4_theorem exF1 .add .w32 .inert .inert (BState.mk [badNode] [] [] []) []
      (BState.mk [badNode] [] [] []) 0 [badNode, ⟨.var .i32, []⟩] 1 true
      .clz .i32 .inert).2.2.1
      (by decide) (by decide),
   (((claim_C4_theorem exF1 .add .w32 (.cnst .i32 1) .inert (BState.mk [badNode] [] [] []) []
      (BState.mk [badNode] [] [] []) 0 [badNode] 1 true .clz .i32 .inert).2.2.2.1 rfl
      1 (BState.mk [badNode, ⟨.expr (.constE .i32 1), []⟩] [] [] []) 1
      (BState.mk [badNode, ⟨.expr (.constE .i32 1), []⟩] [] [] []).arena rfl rfl).2
      (by decide) badRef (BState.mk [badNode, ⟨.expr (.constE .i32 1), []⟩] [] [] [])
      badRef (BState.mk [badNode, ⟨.expr (.constE .i32 1), []⟩] [] [] []).arena rfl rfl).1 rfl,
   (claim_C4_theorem exF1 .add .w32 .inert .inert (BState.mk [badNode] [] [] [])
      [⟨[0, 1], badRef⟩, ⟨[1, 1], badRef⟩] (BState.mk [badNode] [1, 1] [] []) 0
      [badNode] 1 true .clz .i32 .inert).2.2.2.2.1 (by decide) (by decide) (by decide),
   (((claim_C4_theorem exF1 .add .w32 (.cnst .i32 1) .inert (BState.mk [badNode] [] [] []) []
      (BState.mk [badNode] [] [] []) 0 [badNode] 1 true .clz .i32 .inert).2.2.2.2.2.2.1
      1 (BState.mk [badNode, ⟨.expr (.constE .i32 1), []⟩] [] [] []) 1
      (BState.mk [badNode, ⟨.expr (.constE .i32 1), []⟩] [] [] []).arena rfl rfl).2
      (by decide)).1,
   ((claim_C4_theorem exF1 .add .w32 (.cnst .i32 1) .inert (BState.mk [badNode] [] [] []) []
      (BState.mk [badNode] [] [] []) 0 [badNode] 1 true .clz .i32 .inert).2.2.2.2.2.2.2.1
      1 (BState.mk [badNode, ⟨.expr (.constE .i32 1), []⟩] [] [] []) 1
      (BState.mk [badNode, ⟨.expr (.constE .i32 1), []⟩] [] [] []).arena rfl rfl).2
      (by decide),
   ((((claim_C4_theorem exF1 .gtS .w32 (.cnst .i32 1) (.cnst .i32 2)
      (BState.mk [badNode] [] [] []) []
      (BState.mk [badNode] [] [] []) 0 [badNode] 1 true .clz .i32 .inert).2.2.2.2.2.2.2.2.1
      .leS rfl
      1 (BState.mk [badNode, ⟨.expr (.constE .i32 2), []⟩] [] [] []) 1
      (BState.mk [badNode, ⟨.expr (.constE .i32 2), []⟩] [] [] []).arena rfl rfl).2
      (by decide)
      2 (BState.mk [badNode, ⟨.expr (.constE .i32 2), []⟩,
        ⟨.expr (.constE .i32 1), []⟩] [] [] []) 2
      (BState.mk [badNode, ⟨.expr (.constE .i32 2), []⟩,
        ⟨.expr (.constE .i32 1), []⟩] [] [] []).arena rfl rfl).2 (by decide)).1,
   (((((claim_C4_theorem exF1 .add .w32 (.cnst .i32 1) (.cnst .i32 2)
      (BState.mk [badNode] [] [] []) []
      (BState.mk [badNode] [] [] []) 0 [badNode] 1 true
      .clz .i32 (.cnst .i32 3)).2.2.2.2.2.2.2.2.2
      1 (BState.mk [badNode, ⟨.expr (.constE .i32 1), []⟩] [] [] []) 1
      (BState.mk [badNode, ⟨.expr (.constE .i32 1), []⟩] [] [] []).arena rfl rfl).2
      (by decide)
      2 (BState.mk [badNode, ⟨.expr (.constE .i32 1), []⟩,
        ⟨.expr (.constE .i32 2), []⟩] [] [] []) 2
      (BState.mk [badNode, ⟨.expr (.constE .i32 1), []⟩,
        ⟨.expr (.constE .i32 2), []⟩] [] [] []).arena rfl rfl).2 (by decide)
      3 (BState.mk [badNode, ⟨.expr (.constE .i32 1), []⟩, ⟨.expr (.constE .i32 2), []⟩,
        ⟨.expr (.constE .i32 3), []⟩] [] [] []) 5
      [badNode, ⟨.expr (.constE .i32 1), []⟩, ⟨.expr (.constE .i32 2), []⟩,
        ⟨.expr (.constE .i32 3), []⟩, ⟨.expr (.constE .i32 0), []⟩,
        ⟨.expr (.binE .neK .w32 .i32), [3, 4]⟩] rfl rfl).2 (by decide)).1,
   ((((claim_C4_theorem exF1 .add .w32 (.cnst .i32 1) (.cnst .i32 2)
      (BState.mk [badNode] [] [] []) []
      (BState.mk [badNode] [] [] []) 0 [badNode] 1 true .clz .i32 .inert).2.2.2.2.2.2.2.2.2
      1 (BState.mk [badNode, ⟨.expr (.constE .i32 1), []⟩] [] [] []) 1
      (BState.mk [badNode, ⟨.expr (.constE .i32 1), []⟩] [] [] []).arena rfl rfl).2
      (by decide)
      2 (BState.mk [badNode, ⟨.expr (.constE .i32 1), []⟩,
        ⟨.expr (.constE .i32 2), []⟩] [] [] []) 2
      (BState.mk [badNode, ⟨.expr (.constE .i32 1), []⟩,
        ⟨.expr (.constE .i32 2), []⟩] [] [] []).arena rfl rfl).2 (by decide)
      badRef (BState.mk [badNode, ⟨.expr (.constE .i32 1), []⟩,
        ⟨.expr (.constE .i32 2), []⟩] [] [] [])
      badRef (BState.mk [badNode, ⟨.expr (.constE .i32 1), []⟩,
        ⟨.expr (.constE .i32 2), []⟩] [] [] []).arena rfl rfl).1 rfl⟩

end DataFlow
